import Mathlib

/-!
Shallow embedding of the pharmacy inventory / nearby-match service
(`src/services/pharmacyService.ts`, types from `src/types.ts`).

Modelling conventions:
* JavaScript objects used as string-keyed dictionaries (the global
  inventory) become association lists `List (String × v)`; property
  lookup reads the first matching key, property assignment rewrites
  every pair with that key (JS objects never hold duplicate keys, so
  on states that correspond to actual JS objects the two agree), and
  creating a fresh property appends at the end, matching JS property
  insertion order.
* JS numbers that the claims depend on (prices, coordinates,
  distances) are modelled as `Rat`.  The haversine distance itself is
  floating-point trigonometry; its value is irrelevant to every claim,
  so the nearby-match engine is parameterised by an arbitrary
  distance function `Location → Location → Rat` (full precision), and
  the `toFixed(1)`/`parseFloat` rounding applied by the caller is
  modelled exactly by `round1`.
* `Array.prototype.sort` (stable comparison sort) is modelled by
  `List.insertionSort`, `localeCompare` by an abstract comparison
  parameter; only sortedness/permutation facts are used.
* `Array.prototype.reduce` without an initial accumulator becomes a
  `foldl` over the tail starting from the head.
-/

namespace PharmacySpec

/-- `StockStatus` from `src/types.ts`. -/
inductive StockStatus where
  | Available
  | Unavailable
deriving DecidableEq

/-- One element of a medicine's collection in the global inventory
(`{ pharmacyId, price, stock }` in `pharmacyService.ts`). -/
structure StockEntry where
  pharmacyId : Nat
  price : Rat
  stock : StockStatus
deriving DecidableEq

/-- `GlobalInventory`: a JS object mapping medicine keys to arrays of
stock entries, modelled as an association list in property order. -/
abbrev GlobalInventory := List (String × List StockEntry)

/-- `BasePharmacy` from `pharmacyService.ts` (core, non-runtime fields
of a pharmacy). -/
structure BasePharmacy where
  id : Nat
  name : String
  address : String
  phone : String
  lat : Rat
  lon : Rat
deriving DecidableEq

/-- `AppDatabase` from `pharmacyService.ts`. -/
structure AppDatabase where
  globalInventory : GlobalInventory
  dynamicPharmacies : List BasePharmacy
deriving DecidableEq

/-- `PharmacyOwner` from `src/types.ts`. -/
structure PharmacyOwner where
  name : String
  phone : String
  address : String

/-- `InventoryItem` from `src/types.ts`.  The service guards
`item.stock || StockStatus.Available`, so a missing status is
representable and defaults to `Available`. -/
structure InventoryItem where
  medicineName : String
  price : Rat
  stock : Option StockStatus

/-- `Location` from `pharmacyService.ts`. -/
structure Location where
  lat : Rat
  lon : Rat

/-- The full `Pharmacy` runtime projection of `src/types.ts`: base
fields plus the search-result fields attached by `findNearbyPharmacies`. -/
structure RankedPharmacy where
  base : BasePharmacy
  distance : Rat
  price : Rat
  priceUnit : String
  stock : StockStatus
  isBestOption : Bool
deriving DecidableEq

/-- `const VERIFIED_PHARMACIES_IN_BANGALORE: BasePharmacy[] = []`
(cleared in the source). -/
def VERIFIED_PHARMACIES_IN_BANGALORE : List BasePharmacy := []

/-- JS `String.prototype.toLowerCase`, i.e. character-wise case
folding (`String.toLower` in core Lean maps `Char.toLower` over the
string; the byte-position loop it is implemented with cannot be
unfolded by the kernel, so the equivalent character-list map is used
here). -/
def toLowerCase (s : String) : String := ⟨s.data.map Char.toLower⟩

/-- JS object property read: value at the first pair with this key. -/
def giFind (inv : GlobalInventory) (k : String) : Option (List StockEntry) :=
  (inv.find? (fun pr => pr.1 == k)).map (fun pr => pr.2)

/-- JS object property write to a key that is already present: rewrite
the pair(s) carrying that key. -/
def giSet (inv : GlobalInventory) (k : String) (v : List StockEntry) : GlobalInventory :=
  inv.map (fun pr => if pr.1 == k then (pr.1, v) else pr)

/-- JS `delete obj[k]`. -/
def giDelete (inv : GlobalInventory) (k : String) : GlobalInventory :=
  inv.filter (fun pr => !(pr.1 == k))

/-- Mutation of the first array element matching a predicate — the
`findIndex` / assign-at-index idiom of the source.  Identity when no
element matches (the source guards with `index > -1`). -/
def setFirst (p : α → Bool) (f : α → α) : List α → List α
  | [] => []
  | x :: xs => if p x then f x :: xs else x :: setFirst p f xs

/-- The per-collection step of the `items.forEach` loop of
`updateGlobalInventory`: overwrite the entry found by
`findIndex(p => p.pharmacyId === pharmacyId)` or push a new one, with
the `item.stock || StockStatus.Available` default. -/
def upsertColl (pharmacyId : Nat) (item : InventoryItem) (coll : List StockEntry) :
    List StockEntry :=
  let stock := item.stock.getD StockStatus.Available
  if coll.any (fun e => e.pharmacyId == pharmacyId) then
    setFirst (fun e => e.pharmacyId == pharmacyId)
      (fun e => { e with price := item.price, stock := stock }) coll
  else
    coll ++ [⟨pharmacyId, item.price, stock⟩]

/-- The body of the `items.forEach` loop of `updateGlobalInventory`:
case-fold the name, create the key if absent (a fresh JS property goes
to the end of the object), then update the collection. -/
def upsertItem (pharmacyId : Nat) (item : InventoryItem) (inv : GlobalInventory) :
    GlobalInventory :=
  let medicineKey := toLowerCase item.medicineName
  match giFind inv medicineKey with
  | some coll => giSet inv medicineKey (upsertColl pharmacyId item coll)
  | none => inv ++ [(medicineKey, upsertColl pharmacyId item [])]

/-- The whole `items.forEach` loop of `updateGlobalInventory`, acting
on the inventory index. -/
def upsertMany (pharmacyId : Nat) (items : List InventoryItem)
    (inv : GlobalInventory) : GlobalInventory :=
  items.foldl (fun gi item => upsertItem pharmacyId item gi) inv

/-- `updateGlobalInventory(pharmacyId, items)`: run the `forEach`
loop over the batch, then persist the whole database. -/
def updateGlobalInventory (pharmacyId : Nat) (items : List InventoryItem)
    (db : AppDatabase) : AppDatabase :=
  { db with globalInventory := upsertMany pharmacyId items db.globalInventory }

/-- `updateStockStatusInGlobalInventory(pharmacyId, medicineName, stock)`:
status-only update of an existing entry; nothing is created or saved
when the key or the entry is missing. -/
def updateStockStatusInGlobalInventory (pharmacyId : Nat) (medicineName : String)
    (stock : StockStatus) (db : AppDatabase) : AppDatabase :=
  let medicineKey := toLowerCase medicineName
  match giFind db.globalInventory medicineKey with
  | some coll =>
      if coll.any (fun e => e.pharmacyId == pharmacyId) then
        let coll' := setFirst (fun e => e.pharmacyId == pharmacyId)
          (fun e => { e with stock := stock }) coll
        { db with globalInventory := giSet db.globalInventory medicineKey coll' }
      else db
  | none => db

/-- `deleteFromGlobalInventory(pharmacyId, medicineName)`: filter the
pharmacy out of the medicine's collection and drop the key when the
collection becomes empty. -/
def deleteFromGlobalInventory (pharmacyId : Nat) (medicineName : String)
    (db : AppDatabase) : AppDatabase :=
  let medicineKey := toLowerCase medicineName
  match giFind db.globalInventory medicineKey with
  | some coll =>
      let coll' := coll.filter (fun e => !(e.pharmacyId == pharmacyId))
      if coll'.length = 0 then
        { db with globalInventory := giDelete db.globalInventory medicineKey }
      else
        { db with globalInventory := giSet db.globalInventory medicineKey coll' }
  | none => db

/-- `checkMedicineLocally(medicineName)`:
`!!inv[key] && inv[key].length > 0`. -/
def checkMedicineLocally (medicineName : String) (db : AppDatabase) : Bool :=
  match giFind db.globalInventory (toLowerCase medicineName) with
  | some coll => decide (0 < coll.length)
  | none => false

/-- `[...VERIFIED_PHARMACIES_IN_BANGALORE, ...db.dynamicPharmacies]`. -/
def allPharmacies (db : AppDatabase) : List BasePharmacy :=
  VERIFIED_PHARMACIES_IN_BANGALORE ++ db.dynamicPharmacies

/-- `registerOrGetPharmacy(details, location)`: case-insensitive
find-or-create returning the pharmacy together with the updated
database (`getDb`/`saveDb` made explicit). -/
def registerOrGetPharmacy (details : PharmacyOwner) (location : Location)
    (db : AppDatabase) : BasePharmacy × AppDatabase :=
  match (allPharmacies db).find?
      (fun p => toLowerCase p.name == toLowerCase details.name) with
  | some existingPharmacy => (existingPharmacy, db)
  | none =>
      let maxId := ((allPharmacies db).map (fun p => p.id)).foldl max 1000
      let newPharmacy : BasePharmacy :=
        { id := maxId + 1
          name := details.name
          address := details.address
          phone := details.phone
          lat := location.lat
          lon := location.lon }
      (newPharmacy, { db with dynamicPharmacies := db.dynamicPharmacies ++ [newPharmacy] })

/-- The JS `Map.set` step used by `getRegisteredPharmacies`: replace
the value at an existing key keeping its position, otherwise append. -/
def jsMapSet (k : String) (v : BasePharmacy) (m : List (String × BasePharmacy)) :
    List (String × BasePharmacy) :=
  if m.any (fun pr => pr.1 == k) then
    setFirst (fun pr => pr.1 == k) (fun pr => (pr.1, v)) m
  else
    m ++ [(k, v)]

/-- The dedup `Map` of `getRegisteredPharmacies`: every pharmacy is
`set` under its case-folded name; later entries win. -/
def dedupByName (ps : List BasePharmacy) : List BasePharmacy :=
  (ps.foldl (fun m p => jsMapSet (toLowerCase p.name) p m) []).map (fun pr => pr.2)

/-- `getRegisteredPharmacies()`: dedup by case-folded name, then sort
for display.  `localeCompare` is locale-dependent, so the name order
is an abstract total preorder passed as a parameter; only its
permutation property is ever used. -/
def getRegisteredPharmacies (r : BasePharmacy → BasePharmacy → Prop) [DecidableRel r]
    (db : AppDatabase) : List BasePharmacy :=
  (dedupByName (allPharmacies db)).insertionSort r

/-- `parseFloat(x.toFixed(1))`: round to one decimal, ties away from
zero upward (ECMAScript `toFixed` picks the larger candidate). -/
def round1 (q : Rat) : Rat := (⌊q * 10 + 1 / 2⌋ : Int) / 10

/-- `globalInventory[medicineName.toLowerCase()] || []`. -/
def stockEntriesFor (db : AppDatabase) (medicineName : String) : List StockEntry :=
  (giFind db.globalInventory (toLowerCase medicineName)).getD []

/-- `stockedPharmacyIds.has(id)`: the `Set` built from the medicine's
collection. -/
def hasEntryFor (coll : List StockEntry) (id : Nat) : Bool :=
  coll.any (fun e => e.pharmacyId == id)

/-- `priceMap.get(id)` / `stockMap.get(id)`: a JS `Map` built from a
list of pairs keeps the **last** binding of a duplicated key. -/
def lastEntryFor (coll : List StockEntry) (id : Nat) : Option StockEntry :=
  coll.reverse.find? (fun e => e.pharmacyId == id)

/-- One element of `allPharmaciesWithDetails` (plus the
`isBestOption: false` that both partition branches attach). -/
def toRanked (dist : Location → Location → Rat) (userLocation : Location)
    (coll : List StockEntry) (pharmacy : BasePharmacy) : RankedPharmacy :=
  let d := round1 (dist userLocation ⟨pharmacy.lat, pharmacy.lon⟩)
  let hasEntry := hasEntryFor coll pharmacy.id
  { base := pharmacy
    distance := d
    price := if hasEntry then ((lastEntryFor coll pharmacy.id).map (fun e => e.price)).getD 0 else 0
    priceUnit := if hasEntry then "per strip" else "-"
    stock := if hasEntry then
        ((lastEntryFor coll pharmacy.id).map (fun e => e.stock)).getD StockStatus.Unavailable
      else StockStatus.Unavailable
    isBestOption := false }

/-- `allPharmaciesWithDetails` of `findNearbyPharmacies`. -/
def pharmaciesWithDetails (dist : Location → Location → Rat) (userLocation : Location)
    (medicineName : String) (db : AppDatabase) : List RankedPharmacy :=
  (allPharmacies db).map (toRanked dist userLocation (stockEntriesFor db medicineName))

/-- `availablePharmacies` of `findNearbyPharmacies`. -/
def availablePharmacies (dist : Location → Location → Rat) (userLocation : Location)
    (medicineName : String) (db : AppDatabase) : List RankedPharmacy :=
  (pharmaciesWithDetails dist userLocation medicineName db).filter
    (fun p => p.stock == StockStatus.Available)

/-- `unavailablePharmacies` of `findNearbyPharmacies`. -/
def unavailablePharmacies (dist : Location → Location → Rat) (userLocation : Location)
    (medicineName : String) (db : AppDatabase) : List RankedPharmacy :=
  (pharmaciesWithDetails dist userLocation medicineName db).filter
    (fun p => !(p.stock == StockStatus.Available))

/-- The distance order used by
`unavailablePharmacies.sort((a, b) => a.distance - b.distance)`. -/
def distLE (a b : RankedPharmacy) : Prop := a.distance ≤ b.distance

instance : DecidableRel distLE := fun a b => inferInstanceAs (Decidable (a.distance ≤ b.distance))

instance : IsTotal RankedPharmacy distLE := ⟨fun a b => le_total a.distance b.distance⟩

instance : IsTrans RankedPharmacy distLE := ⟨fun _ _ _ h h' => le_trans h h'⟩

/-- The sorted unavailable list of `findNearbyPharmacies`. -/
def sortedUnavailable (dist : Location → Location → Rat) (userLocation : Location)
    (medicineName : String) (db : AppDatabase) : List RankedPharmacy :=
  (unavailablePharmacies dist userLocation medicineName db).insertionSort distLE

/-- `MAX_RESULTS`. -/
def MAX_RESULTS : Nat := 15

/-- `combinedResults`: all available pharmacies, then the nearest
unavailable ones while the total stays under the cap. -/
def combinedResults (dist : Location → Location → Rat) (userLocation : Location)
    (medicineName : String) (db : AppDatabase) : List RankedPharmacy :=
  let avail := availablePharmacies dist userLocation medicineName db
  let neededUnavailable : Int := (MAX_RESULTS : Int) - avail.length
  if 0 < neededUnavailable then
    avail ++ (sortedUnavailable dist userLocation medicineName db).take neededUnavailable.toNat
  else avail

/-- `score = distance * 10 + price` (the best-option scoring of the
source, a lower score being better). -/
def score (p : RankedPharmacy) : Rat := p.distance * 10 + p.price

/-- The body of the `reduce`: keep the accumulator unless the current
score is strictly smaller (so ties keep the earlier pharmacy). -/
def bestReduce (best current : RankedPharmacy) : RankedPharmacy :=
  if score current < score best then current else best

/-- `availablePharmacies.reduce(bestReduce)`: `none` on an empty list
(the source guards with `length > 0`); otherwise a fold over the tail
starting from the head, exactly as `reduce` without initial value. -/
def bestOption (dist : Location → Location → Rat) (userLocation : Location)
    (medicineName : String) (db : AppDatabase) : Option RankedPharmacy :=
  match availablePharmacies dist userLocation medicineName db with
  | [] => none
  | h :: t => some (t.foldl bestReduce h)

/-- Setting `isBestOption` at `findIndex(p => p.id === bestOption.id)`
(identity when the index is `-1`). -/
def markBest (b : RankedPharmacy) (l : List RankedPharmacy) : List RankedPharmacy :=
  setFirst (fun p => p.base.id == b.base.id) (fun p => { p with isBestOption := true }) l

/-- `findNearbyPharmacies(userLocation, medicineName)`. -/
def findNearbyPharmacies (dist : Location → Location → Rat) (userLocation : Location)
    (medicineName : String) (db : AppDatabase) : List RankedPharmacy :=
  match bestOption dist userLocation medicineName db with
  | some b => markBest b (combinedResults dist userLocation medicineName db)
  | none => combinedResults dist userLocation medicineName db

end PharmacySpec


namespace PharmacySpec

/-! ### Basic facts about `setFirst` -/

theorem setFirst_length (p : α → Bool) (f : α → α) (l : List α) :
    (setFirst p f l).length = l.length := by
  induction l with
  | nil => rfl
  | cons x xs ih =>
      simp only [setFirst]
      split <;> simp [ih]

theorem setFirst_of_all_neg {p : α → Bool} {f : α → α} {l : List α}
    (h : ∀ x ∈ l, p x = false) : setFirst p f l = l := by
  induction l with
  | nil => rfl
  | cons x xs ih =>
      have hx := h x (List.mem_cons_self x xs)
      simp only [setFirst, hx, Bool.false_eq_true, if_false]
      rw [ih (fun y hy => h y (List.mem_cons_of_mem x hy))]

theorem setFirst_append_of_all_neg {p : α → Bool} {f : α → α} {l₁ l₂ : List α}
    (h : ∀ x ∈ l₁, p x = false) :
    setFirst p f (l₁ ++ l₂) = l₁ ++ setFirst p f l₂ := by
  induction l₁ with
  | nil => rfl
  | cons x xs ih =>
      have hx := h x (List.mem_cons_self x xs)
      simp only [List.cons_append, setFirst, hx, Bool.false_eq_true, if_false,
        List.cons.injEq, true_and]
      exact ih (fun y hy => h y (List.mem_cons_of_mem x hy))

theorem setFirst_eq_of_split {p : α → Bool} {f : α → α} {l₁ l₂ : List α} {x : α}
    (h₁ : ∀ y ∈ l₁, p y = false) (hx : p x = true) :
    setFirst p f (l₁ ++ x :: l₂) = l₁ ++ f x :: l₂ := by
  rw [setFirst_append_of_all_neg h₁]
  simp [setFirst, hx]

theorem mem_setFirst {p : α → Bool} {f : α → α} {l : List α} {x : α}
    (hx : x ∈ setFirst p f l) : x ∈ l ∨ ∃ y ∈ l, x = f y := by
  induction l with
  | nil => simp [setFirst] at hx
  | cons a as ih =>
      simp only [setFirst] at hx
      by_cases hp : p a = true
      · rw [if_pos hp] at hx
        rcases List.mem_cons.mp hx with h | h
        · exact Or.inr ⟨a, List.mem_cons_self a as, h⟩
        · exact Or.inl (List.mem_cons_of_mem a h)
      · rw [if_neg hp] at hx
        rcases List.mem_cons.mp hx with h | h
        · exact Or.inl (h ▸ List.mem_cons_self a as)
        · rcases ih h with h' | ⟨y, hy, hxy⟩
          · exact Or.inl (List.mem_cons_of_mem a h')
          · exact Or.inr ⟨y, List.mem_cons_of_mem a hy, hxy⟩

theorem map_setFirst (g : α → β) {p : α → Bool} {f : α → α} (l : List α)
    (h : ∀ x, g (f x) = g x) : (setFirst p f l).map g = l.map g := by
  induction l with
  | nil => rfl
  | cons a as ih =>
      simp only [setFirst]
      split <;> simp [ih, h]

theorem any_setFirst {p q : α → Bool} {f : α → α} (l : List α)
    (h : ∀ x, q (f x) = q x) : (setFirst p f l).any q = l.any q := by
  induction l with
  | nil => rfl
  | cons a as ih =>
      simp only [setFirst]
      split <;> simp [ih, h]

theorem setFirst_setFirst {p : α → Bool} {f g : α → α} (l : List α)
    (h : ∀ x, p (g x) = p x) :
    setFirst p f (setFirst p g l) = setFirst p (fun x => f (g x)) l := by
  induction l with
  | nil => rfl
  | cons a as ih =>
      by_cases hp : p a = true
      · simp [setFirst, hp, h]
      · simp [setFirst, hp, ih]

/-- Filtering away exactly the elements the predicate touches makes
`setFirst` invisible. -/
theorem filter_setFirst_of_disjoint {p q : α → Bool} {f : α → α} (l : List α)
    (hpf : ∀ x, p x = true → q x = false) (hf : ∀ x, q (f x) = q x) :
    (setFirst p f l).filter q = l.filter q := by
  induction l with
  | nil => rfl
  | cons a as ih =>
      by_cases hp : p a = true
      · have h1 : q (f a) = false := by rw [hf a]; exact hpf a hp
        have h2 : q a = false := hpf a hp
        simp [setFirst, hp, List.filter_cons, h1, h2]
      · simp only [setFirst, hp, Bool.false_eq_true, if_false, List.filter_cons]
        split <;> simp [ih]

/-! ### Basic facts about the JS-object operations -/

theorem giFind_cons (pr : String × List StockEntry) (rest : GlobalInventory)
    (k : String) :
    giFind (pr :: rest) k = if pr.1 == k then some pr.2 else giFind rest k := by
  by_cases hk : pr.1 == k <;> simp [giFind, List.find?_cons, hk]

theorem giSet_cons (pr : String × List StockEntry) (rest : GlobalInventory)
    (k : String) (v : List StockEntry) :
    giSet (pr :: rest) k v = (if pr.1 == k then (pr.1, v) else pr) :: giSet rest k v := rfl

theorem giFind_giSet_self {inv : GlobalInventory} {k : String} {v : List StockEntry}
    (h : (giFind inv k).isSome) : giFind (giSet inv k v) k = some v := by
  induction inv with
  | nil => simp [giFind] at h
  | cons pr rest ih =>
      by_cases hk : pr.1 = k
      · simp [giSet_cons, giFind_cons, hk]
      · rw [giFind_cons, if_neg (by simp [hk])] at h
        rw [giSet_cons, if_neg (by simp [hk]), giFind_cons, if_neg (by simp [hk])]
        exact ih h

theorem giFind_giSet_ne {inv : GlobalInventory} {k k' : String} {v : List StockEntry}
    (h : k' ≠ k) : giFind (giSet inv k v) k' = giFind inv k' := by
  induction inv with
  | nil => rfl
  | cons pr rest ih =>
      by_cases hk : pr.1 = k
      · rw [giSet_cons, if_pos (by simp [hk]), giFind_cons, giFind_cons,
          if_neg (by simp [hk, Ne.symm h]), if_neg (by simp [hk, Ne.symm h])]
        exact ih
      · rw [giSet_cons, if_neg (by simp [hk]), giFind_cons, giFind_cons]
        by_cases hk' : pr.1 = k'
        · rw [if_pos (by simp [hk']), if_pos (by simp [hk'])]
        · rw [if_neg (by simp [hk']), if_neg (by simp [hk'])]
          exact ih

theorem giSet_giSet_self (inv : GlobalInventory) (k : String) (v w : List StockEntry) :
    giSet (giSet inv k v) k w = giSet inv k w := by
  induction inv with
  | nil => rfl
  | cons pr rest ih =>
      by_cases hk : pr.1 = k
      · rw [giSet_cons, if_pos (by simp [hk]), giSet_cons, if_pos (by simp [hk]),
          giSet_cons, if_pos (by simp [hk]), ih]
      · rw [giSet_cons, if_neg (by simp [hk]), giSet_cons, if_neg (by simp [hk]),
          giSet_cons, if_neg (by simp [hk]), ih]

theorem giSet_giSet_ne {k k' : String} (h : k ≠ k') (inv : GlobalInventory)
    (v w : List StockEntry) :
    giSet (giSet inv k v) k' w = giSet (giSet inv k' w) k v := by
  induction inv with
  | nil => rfl
  | cons pr rest ih =>
      by_cases hk : pr.1 = k
      · have hk' : pr.1 ≠ k' := hk ▸ h
        rw [giSet_cons, if_pos (by simp [hk]), giSet_cons, if_neg (by simp [hk']),
          giSet_cons, if_neg (by simp [hk']), giSet_cons, if_pos (by simp [hk]), ih]
      · by_cases hk' : pr.1 = k'
        · rw [giSet_cons, if_neg (by simp [hk]), giSet_cons, if_pos (by simp [hk']),
            giSet_cons, if_pos (by simp [hk']), giSet_cons, if_neg (by simp [hk]), ih]
        · rw [giSet_cons, if_neg (by simp [hk]), giSet_cons, if_neg (by simp [hk']),
            giSet_cons, if_neg (by simp [hk']), giSet_cons, if_neg (by simp [hk]), ih]

theorem giSet_append (inv inv' : GlobalInventory) (k : String) (v : List StockEntry) :
    giSet (inv ++ inv') k v = giSet inv k v ++ giSet inv' k v := by
  simp [giSet]

theorem giFind_append (inv inv' : GlobalInventory) (k : String) :
    giFind (inv ++ inv') k = (giFind inv k).or (giFind inv' k) := by
  simp only [giFind, List.find?_append]
  cases inv.find? (fun pr => pr.1 == k) <;> simp

theorem giSet_of_none {inv : GlobalInventory} {k : String} {v : List StockEntry}
    (h : giFind inv k = none) : giSet inv k v = inv := by
  induction inv with
  | nil => rfl
  | cons pr rest ih =>
      rw [giFind_cons] at h
      by_cases hk : pr.1 = k
      · rw [if_pos (by simp [hk])] at h
        exact absurd h (by simp)
      · rw [if_neg (by simp [hk])] at h
        rw [giSet_cons, if_neg (by simp [hk]), ih h]

theorem giFind_none_append {inv : GlobalInventory} {k : String}
    {v : List StockEntry} (h : giFind inv k = none) :
    giFind (inv ++ [(k, v)]) k = some v := by
  rw [giFind_append, h]
  simp [giFind]

end PharmacySpec

namespace PharmacySpec

/-! ### Facts about `upsertColl` / `upsertItem` / `upsertMany` -/

theorem giSet_singleton (k : String) (c v : List StockEntry) :
    giSet [(k, c)] k v = [(k, v)] := by
  simp [giSet]

theorem giSet_eq_self_of_forall {inv : GlobalInventory} {k : String}
    {v : List StockEntry} (h : ∀ pr ∈ inv, pr.1 = k → pr.2 = v) :
    giSet inv k v = inv := by
  induction inv with
  | nil => rfl
  | cons pr rest ih =>
      rw [giSet_cons]
      by_cases hk : pr.1 = k
      · rw [if_pos (by simp [hk])]
        have : pr.2 = v := h pr (List.mem_cons_self pr rest) hk
        rw [ih (fun q hq => h q (List.mem_cons_of_mem pr hq)), ← this]
      · rw [if_neg (by simp [hk]), ih (fun q hq => h q (List.mem_cons_of_mem pr hq))]

theorem forall_of_giSet_eq_self {inv : GlobalInventory} {k : String}
    {v : List StockEntry} (h : giSet inv k v = inv) :
    ∀ pr ∈ inv, pr.1 = k → pr.2 = v := by
  induction inv with
  | nil => simp
  | cons pr rest ih =>
      rw [giSet_cons] at h
      intro q hq hqk
      rcases List.mem_cons.mp hq with rfl | hq'
      · by_cases hk : q.1 = k
        · have := (List.cons.injEq _ _ _ _).mp h |>.1
          rw [if_pos (by simp [hk])] at this
          exact congrArg Prod.snd this.symm
        · exact absurd hqk hk
      · have htail := (List.cons.injEq _ _ _ _).mp h |>.2
        exact ih htail q hq' hqk

theorem upsertColl_pos {pid : Nat} {coll : List StockEntry}
    (item : InventoryItem) (h : coll.any (fun e => e.pharmacyId == pid) = true) :
    upsertColl pid item coll =
      setFirst (fun e => e.pharmacyId == pid)
        (fun e => { e with price := item.price,
                           stock := item.stock.getD StockStatus.Available }) coll := by
  simp only [upsertColl, h, if_true]

theorem upsertColl_neg {pid : Nat} {coll : List StockEntry}
    (item : InventoryItem) (h : coll.any (fun e => e.pharmacyId == pid) = false) :
    upsertColl pid item coll =
      coll ++ [⟨pid, item.price, item.stock.getD StockStatus.Available⟩] := by
  simp only [upsertColl, h, Bool.false_eq_true, if_false]

theorem upsertItem_of_some {inv : GlobalInventory} {item : InventoryItem}
    {coll : List StockEntry} (pid : Nat)
    (h : giFind inv (toLowerCase item.medicineName) = some coll) :
    upsertItem pid item inv =
      giSet inv (toLowerCase item.medicineName) (upsertColl pid item coll) := by
  simp only [upsertItem, h]

theorem upsertItem_of_none {inv : GlobalInventory} {item : InventoryItem} (pid : Nat)
    (h : giFind inv (toLowerCase item.medicineName) = none) :
    upsertItem pid item inv =
      inv ++ [(toLowerCase item.medicineName, upsertColl pid item [])] := by
  simp only [upsertItem, h]

theorem upsertColl_any (pid : Nat) (item : InventoryItem) (coll : List StockEntry) :
    (upsertColl pid item coll).any (fun e => e.pharmacyId == pid) = true := by
  by_cases h : coll.any (fun e => e.pharmacyId == pid)
  · rw [upsertColl_pos item h, any_setFirst]
    · exact h
    · intro x; rfl
  · rw [upsertColl_neg item (Bool.eq_false_iff.mpr h)]
    simp

/-- Overwriting the price/stock of the first matching entry twice is
the same as doing it once with the final values. -/
theorem setFirst_overwrite (pid : Nat) (P P' : Rat) (S S' : StockStatus)
    (coll : List StockEntry) :
    setFirst (fun e => e.pharmacyId == pid) (fun e => { e with price := P, stock := S })
      (setFirst (fun e => e.pharmacyId == pid)
        (fun e => { e with price := P', stock := S' }) coll) =
    setFirst (fun e => e.pharmacyId == pid)
      (fun e => { e with price := P, stock := S }) coll := by
  induction coll with
  | nil => rfl
  | cons a as ih =>
      by_cases hp : (a.pharmacyId == pid) = true
      · simp [setFirst, hp]
      · simp [setFirst, hp, ih]

theorem upsertColl_upsertColl (pid : Nat) (it jt : InventoryItem)
    (coll : List StockEntry) :
    upsertColl pid jt (upsertColl pid it coll) = upsertColl pid jt coll := by
  have h2 := upsertColl_any pid it coll
  by_cases h : coll.any (fun e => e.pharmacyId == pid)
  · rw [upsertColl_pos jt (by rw [upsertColl_pos it h] at h2; rw [upsertColl_pos it h]; exact h2),
      upsertColl_pos it h, upsertColl_pos jt h,
      setFirst_overwrite]
  · have hneg : ∀ e ∈ coll, (e.pharmacyId == pid) = false := by
      intro e he
      exact Bool.eq_false_iff.mpr ((List.any_eq_false).mp (Bool.eq_false_iff.mpr h) e he)
    rw [upsertColl_pos jt (by rw [upsertColl_neg it (Bool.eq_false_iff.mpr h)] at h2 ⊢; exact h2),
      upsertColl_neg it (Bool.eq_false_iff.mpr h),
      upsertColl_neg jt (Bool.eq_false_iff.mpr h),
      setFirst_append_of_all_neg hneg]
    simp [setFirst]

theorem giFind_upsertItem_ne {item : InventoryItem} {k : String}
    (h : toLowerCase item.medicineName ≠ k) (pid : Nat) (inv : GlobalInventory) :
    giFind (upsertItem pid item inv) k = giFind inv k := by
  cases hf : giFind inv (toLowerCase item.medicineName) with
  | some coll =>
      rw [upsertItem_of_some pid hf]
      exact giFind_giSet_ne (Ne.symm h)
  | none =>
      rw [upsertItem_of_none pid hf, giFind_append]
      have hone : giFind [(toLowerCase item.medicineName, upsertColl pid item [])] k = none := by
        simp [giFind, h]
      rw [hone]
      cases giFind inv k <;> rfl

theorem giFind_upsertItem_self (pid : Nat) (item : InventoryItem)
    (inv : GlobalInventory) :
    (giFind (upsertItem pid item inv) (toLowerCase item.medicineName)).isSome := by
  cases hf : giFind inv (toLowerCase item.medicineName) with
  | some coll =>
      rw [upsertItem_of_some pid hf, giFind_giSet_self (by rw [hf]; rfl)]
      rfl
  | none =>
      rw [upsertItem_of_none pid hf, giFind_none_append hf]
      rfl

theorem giFind_isSome_upsertItem {k : String} {inv : GlobalInventory}
    (h : (giFind inv k).isSome) (pid : Nat) (item : InventoryItem) :
    (giFind (upsertItem pid item inv) k).isSome := by
  by_cases hk : toLowerCase item.medicineName = k
  · rw [← hk]
    exact giFind_upsertItem_self pid item inv
  · rw [giFind_upsertItem_ne hk]
    exact h

theorem upsertItem_absorb_same {pid : Nat} {it jt : InventoryItem}
    (hk : toLowerCase jt.medicineName = toLowerCase it.medicineName)
    (inv : GlobalInventory) :
    upsertItem pid jt (upsertItem pid it inv) = upsertItem pid jt inv := by
  cases hf : giFind inv (toLowerCase it.medicineName) with
  | some coll =>
      have hfj : giFind inv (toLowerCase jt.medicineName) = some coll := by
        rw [hk]; exact hf
      have hit : upsertItem pid it inv =
          giSet inv (toLowerCase it.medicineName) (upsertColl pid it coll) :=
        upsertItem_of_some pid hf
      have hfind : giFind (upsertItem pid it inv) (toLowerCase jt.medicineName) =
          some (upsertColl pid it coll) := by
        rw [hk, hit]
        exact giFind_giSet_self (by rw [hf]; rfl)
      rw [upsertItem_of_some pid hfind, upsertItem_of_some pid hfj, hit, hk,
        giSet_giSet_self, upsertColl_upsertColl]
  | none =>
      have hfjn : giFind inv (toLowerCase jt.medicineName) = none := by
        rw [hk]; exact hf
      have hit : upsertItem pid it inv =
          inv ++ [(toLowerCase it.medicineName, upsertColl pid it [])] :=
        upsertItem_of_none pid hf
      have hfind : giFind (upsertItem pid it inv) (toLowerCase jt.medicineName) =
          some (upsertColl pid it []) := by
        rw [hk, hit]
        exact giFind_none_append hf
      rw [upsertItem_of_some pid hfind, upsertItem_of_none pid hfjn, hit, hk,
        giSet_append, giSet_of_none hf, giSet_singleton, upsertColl_upsertColl]

theorem upsertItem_upsertItem (pid : Nat) (it : InventoryItem) (inv : GlobalInventory) :
    upsertItem pid it (upsertItem pid it inv) = upsertItem pid it inv :=
  upsertItem_absorb_same rfl inv

theorem upsertItem_comm_ne {pid : Nat} {it jt : InventoryItem}
    (hk : toLowerCase jt.medicineName ≠ toLowerCase it.medicineName)
    {inv : GlobalInventory}
    (hpres : (giFind inv (toLowerCase it.medicineName)).isSome) :
    upsertItem pid jt (upsertItem pid it inv) = upsertItem pid it (upsertItem pid jt inv) := by
  obtain ⟨ci, hci⟩ := Option.isSome_iff_exists.mp hpres
  cases hfj : giFind inv (toLowerCase jt.medicineName) with
  | some cj =>
      have h1 : giFind (upsertItem pid it inv) (toLowerCase jt.medicineName) = some cj := by
        rw [upsertItem_of_some pid hci, giFind_giSet_ne hk, hfj]
      have h2 : giFind (upsertItem pid jt inv) (toLowerCase it.medicineName) = some ci := by
        rw [upsertItem_of_some pid hfj, giFind_giSet_ne (Ne.symm hk), hci]
      rw [upsertItem_of_some pid h1, upsertItem_of_some pid h2,
        upsertItem_of_some pid hci, upsertItem_of_some pid hfj,
        giSet_giSet_ne (Ne.symm hk)]
  | none =>
      have h1 : giFind (upsertItem pid it inv) (toLowerCase jt.medicineName) = none := by
        rw [upsertItem_of_some pid hci, giFind_giSet_ne hk, hfj]
      have h2 : giFind (upsertItem pid jt inv) (toLowerCase it.medicineName) = some ci := by
        rw [upsertItem_of_none pid hfj, giFind_append, hci]
        rfl
      rw [upsertItem_of_none pid h1, upsertItem_of_some pid h2,
        upsertItem_of_some pid hci, upsertItem_of_none pid hfj,
        giSet_append]
      have hsingle : giSet [(toLowerCase jt.medicineName, upsertColl pid jt [])]
          (toLowerCase it.medicineName) (upsertColl pid it ci) =
          [(toLowerCase jt.medicineName, upsertColl pid jt [])] := by
        simp [giSet, hk]
      rw [hsingle]

theorem upsertMany_nil (pid : Nat) (inv : GlobalInventory) :
    upsertMany pid [] inv = inv := rfl

theorem upsertMany_cons (pid : Nat) (it : InventoryItem) (items : List InventoryItem)
    (inv : GlobalInventory) :
    upsertMany pid (it :: items) inv = upsertMany pid items (upsertItem pid it inv) := rfl

theorem giFind_isSome_upsertMany {k : String} {inv : GlobalInventory}
    (h : (giFind inv k).isSome) (pid : Nat) (items : List InventoryItem) :
    (giFind (upsertMany pid items inv) k).isSome := by
  induction items generalizing inv with
  | nil => exact h
  | cons it rest ih => exact ih (giFind_isSome_upsertItem h pid it)

/-- A state that has fully absorbed an item keeps absorbing it after
any update under a different medicine key. -/
theorem upsertItem_absorb_frame {pid : Nat} {it jt : InventoryItem}
    {Z : GlobalInventory} (habs : upsertItem pid it Z = Z)
    (hk : toLowerCase jt.medicineName ≠ toLowerCase it.medicineName) :
    upsertItem pid it (upsertItem pid jt Z) = upsertItem pid jt Z := by
  cases hci : giFind Z (toLowerCase it.medicineName) with
  | none =>
      exfalso
      rw [upsertItem_of_none pid hci] at habs
      have hlen := congrArg List.length habs
      simp at hlen
  | some ci =>
      rw [upsertItem_of_some pid hci] at habs
      have hptwise := forall_of_giSet_eq_self habs
      have hfind : giFind (upsertItem pid jt Z) (toLowerCase it.medicineName) = some ci := by
        rw [giFind_upsertItem_ne hk]
        exact hci
      rw [upsertItem_of_some pid hfind]
      apply giSet_eq_self_of_forall
      intro pr hpr hprk
      cases hcj : giFind Z (toLowerCase jt.medicineName) with
      | some cj =>
          rw [upsertItem_of_some pid hcj] at hpr
          obtain ⟨q, hq, hq2⟩ := List.mem_map.mp hpr
          by_cases hqk : (q.1 == toLowerCase jt.medicineName) = true
          · exfalso
            rw [if_pos hqk] at hq2
            apply hk
            have hq1 : pr.1 = q.1 := by rw [← hq2]
            have : q.1 = toLowerCase jt.medicineName := by simpa using hqk
            rw [← this, ← hq1, hprk]
          · rw [if_neg hqk] at hq2
            exact hq2 ▸ hptwise q hq (hq2 ▸ hprk)
      | none =>
          rw [upsertItem_of_none pid hcj] at hpr
          rcases List.mem_append.mp hpr with hin | hin
          · exact hptwise pr hin hprk
          · exfalso
            have : pr = (toLowerCase jt.medicineName, upsertColl pid jt []) := by
              simpa using hin
            apply hk
            rw [← hprk, this]

theorem upsertItem_absorb_many {pid : Nat} {it : InventoryItem}
    {items : List InventoryItem} {Z : GlobalInventory}
    (habs : upsertItem pid it Z = Z)
    (hk : ∀ jt ∈ items, toLowerCase jt.medicineName ≠ toLowerCase it.medicineName) :
    upsertItem pid it (upsertMany pid items Z) = upsertMany pid items Z := by
  induction items generalizing Z with
  | nil => exact habs
  | cons jt rest ih =>
      rw [upsertMany_cons]
      exact ih (upsertItem_absorb_frame habs (hk jt (List.mem_cons_self jt rest)))
        (fun q hq => hk q (List.mem_cons_of_mem jt hq))

/-- Folding a batch that mentions the item's medicine key again makes a
leading upsert of that item invisible, as long as the key is present. -/
theorem upsertMany_eats {pid : Nat} {it : InventoryItem} {items : List InventoryItem}
    {X : GlobalInventory}
    (hpres : (giFind X (toLowerCase it.medicineName)).isSome)
    (hany : ∃ jt ∈ items, toLowerCase jt.medicineName = toLowerCase it.medicineName) :
    upsertMany pid items (upsertItem pid it X) = upsertMany pid items X := by
  induction items generalizing X with
  | nil => simp at hany
  | cons jt rest ih =>
      rw [upsertMany_cons, upsertMany_cons]
      by_cases hj : toLowerCase jt.medicineName = toLowerCase it.medicineName
      · rw [upsertItem_absorb_same hj X]
      · have hany' : ∃ q ∈ rest, toLowerCase q.medicineName = toLowerCase it.medicineName := by
          rcases hany with ⟨q, hq, hq2⟩
          rcases List.mem_cons.mp hq with rfl | hq'
          · exact absurd hq2 hj
          · exact ⟨q, hq', hq2⟩
        rw [upsertItem_comm_ne hj hpres]
        exact ih (giFind_isSome_upsertItem hpres pid jt) hany'

theorem upsertMany_upsertMany (pid : Nat) (items : List InventoryItem)
    (inv : GlobalInventory) :
    upsertMany pid items (upsertMany pid items inv) = upsertMany pid items inv := by
  induction items generalizing inv with
  | nil => rfl
  | cons it rest ih =>
      rw [upsertMany_cons, upsertMany_cons]
      by_cases hany : ∃ jt ∈ rest, toLowerCase jt.medicineName = toLowerCase it.medicineName
      · have hpres : (giFind (upsertMany pid rest (upsertItem pid it inv))
            (toLowerCase it.medicineName)).isSome :=
          giFind_isSome_upsertMany (giFind_upsertItem_self pid it inv) pid rest
        rw [upsertMany_eats hpres hany]
        exact ih (upsertItem pid it inv)
      · push_neg at hany
        have h2 : upsertItem pid it (upsertMany pid rest (upsertItem pid it inv)) =
            upsertMany pid rest (upsertItem pid it inv) :=
          upsertItem_absorb_many (upsertItem_upsertItem pid it inv) hany
        rw [h2]
        exact ih (upsertItem pid it inv)

/-- C6: `upsertMany` is idempotent — for every pharmacy, every batch
of items, and every starting index state, running
`updateGlobalInventory` twice with the identical batch yields exactly
the same database state as running it once. -/
theorem updateGlobalInventory_idempotent (pharmacyId : Nat)
    (items : List InventoryItem) (db : AppDatabase) :
    updateGlobalInventory pharmacyId items (updateGlobalInventory pharmacyId items db) =
      updateGlobalInventory pharmacyId items db := by
  simp only [updateGlobalInventory]
  rw [upsertMany_upsertMany]

/-! ### Registry operations -/

theorem registerOrGetPharmacy_of_some {details : PharmacyOwner} {db : AppDatabase}
    {p : BasePharmacy} (loc : Location)
    (h : (allPharmacies db).find?
      (fun q => toLowerCase q.name == toLowerCase details.name) = some p) :
    registerOrGetPharmacy details loc db = (p, db) := by
  simp only [registerOrGetPharmacy, h]

theorem registerOrGetPharmacy_of_none {details : PharmacyOwner} {db : AppDatabase}
    (loc : Location)
    (h : (allPharmacies db).find?
      (fun q => toLowerCase q.name == toLowerCase details.name) = none) :
    registerOrGetPharmacy details loc db =
      (⟨((allPharmacies db).map (fun p => p.id)).foldl max 1000 + 1,
          details.name, details.address, details.phone, loc.lat, loc.lon⟩,
        { db with dynamicPharmacies := db.dynamicPharmacies ++
            [⟨((allPharmacies db).map (fun p => p.id)).foldl max 1000 + 1,
              details.name, details.address, details.phone, loc.lat, loc.lon⟩] }) := by
  simp only [registerOrGetPharmacy, h]

/-- C3: two `registerOrGetPharmacy` calls whose names agree up to case
folding resolve to the same pharmacy record, and a call whose name hits
an existing pharmacy returns that record and leaves the database
untouched. -/
theorem registerOrGetPharmacy_name_identity (details1 details2 : PharmacyOwner)
    (loc1 loc2 : Location) (db : AppDatabase)
    (hname : toLowerCase details1.name = toLowerCase details2.name) :
    (registerOrGetPharmacy details2 loc2 (registerOrGetPharmacy details1 loc1 db).2).1 =
      (registerOrGetPharmacy details1 loc1 db).1 ∧
    (∀ p, (allPharmacies db).find?
        (fun q => toLowerCase q.name == toLowerCase details1.name) = some p →
      registerOrGetPharmacy details1 loc1 db = (p, db)) := by
  constructor
  · cases hf : (allPharmacies db).find?
        (fun q => toLowerCase q.name == toLowerCase details1.name) with
    | some p =>
        rw [registerOrGetPharmacy_of_some loc1 hf]
        have hf2 : (allPharmacies db).find?
            (fun q => toLowerCase q.name == toLowerCase details2.name) = some p := by
          rw [← hname]
          exact hf
        rw [registerOrGetPharmacy_of_some loc2 hf2]
    | none =>
        rw [registerOrGetPharmacy_of_none loc1 hf]
        have hall : allPharmacies { db with dynamicPharmacies := db.dynamicPharmacies ++
            [⟨((allPharmacies db).map (fun p => p.id)).foldl max 1000 + 1,
              details1.name, details1.address, details1.phone, loc1.lat, loc1.lon⟩] } =
            allPharmacies db ++
            [⟨((allPharmacies db).map (fun p => p.id)).foldl max 1000 + 1,
              details1.name, details1.address, details1.phone, loc1.lat, loc1.lon⟩] := by
          simp [allPharmacies]
        have hf2 : (allPharmacies { db with dynamicPharmacies := db.dynamicPharmacies ++
            [⟨((allPharmacies db).map (fun p => p.id)).foldl max 1000 + 1,
              details1.name, details1.address, details1.phone, loc1.lat, loc1.lon⟩] }).find?
            (fun q => toLowerCase q.name == toLowerCase details2.name) =
            some ⟨((allPharmacies db).map (fun p => p.id)).foldl max 1000 + 1,
              details1.name, details1.address, details1.phone, loc1.lat, loc1.lon⟩ := by
          rw [hall, List.find?_append, ← hname, hf]
          simp [hname]
        rw [registerOrGetPharmacy_of_some loc2 hf2]
  · intro p hp
    exact registerOrGetPharmacy_of_some loc1 hp

theorem foldl_max_spec (l : List Nat) (a : Nat) :
    a ≤ l.foldl max a ∧ ∀ x ∈ l, x ≤ l.foldl max a := by
  induction l generalizing a with
  | nil => simp
  | cons b bs ih =>
      refine ⟨le_trans (le_max_left a b) (ih (max a b)).1, ?_⟩
      intro x hx
      rcases List.mem_cons.mp hx with rfl | hx'
      · exact le_trans (le_max_right a x) (ih (max a x)).1
      · exact (ih (max a b)).2 x hx'

/-- C4: a fresh registration mints `max(existing ids, 1000) + 1`, which
is strictly above every existing id and above the reserved baseline, so
id uniqueness is preserved. -/
theorem registerOrGetPharmacy_fresh_id (details : PharmacyOwner) (loc : Location)
    (db : AppDatabase)
    (hmiss : (allPharmacies db).find?
      (fun q => toLowerCase q.name == toLowerCase details.name) = none) :
    (registerOrGetPharmacy details loc db).1.id =
      ((allPharmacies db).map (fun p => p.id)).foldl max 1000 + 1 ∧
    (∀ q ∈ allPharmacies db, q.id < (registerOrGetPharmacy details loc db).1.id) ∧
    1000 < (registerOrGetPharmacy details loc db).1.id ∧
    (((allPharmacies db).map (fun p => p.id)).Nodup →
      ((allPharmacies (registerOrGetPharmacy details loc db).2).map (fun p => p.id)).Nodup) := by
  have hid : (registerOrGetPharmacy details loc db).1.id =
      ((allPharmacies db).map (fun p => p.id)).foldl max 1000 + 1 := by
    rw [registerOrGetPharmacy_of_none loc hmiss]
  have hmax := foldl_max_spec ((allPharmacies db).map (fun p => p.id)) 1000
  refine ⟨hid, ?_, ?_, ?_⟩
  · intro q hq
    have hle : q.id ≤ ((allPharmacies db).map (fun p => p.id)).foldl max 1000 :=
      hmax.2 q.id (List.mem_map.mpr ⟨q, hq, rfl⟩)
    rw [hid]
    omega
  · have := hmax.1
    rw [hid]
    omega
  · intro hnodup
    have hdb : (registerOrGetPharmacy details loc db).2 =
        { db with dynamicPharmacies := db.dynamicPharmacies ++
          [⟨((allPharmacies db).map (fun p => p.id)).foldl max 1000 + 1,
            details.name, details.address, details.phone, loc.lat, loc.lon⟩] } := by
      rw [registerOrGetPharmacy_of_none loc hmiss]
    rw [hdb]
    have hall : allPharmacies { db with dynamicPharmacies := db.dynamicPharmacies ++
        [⟨((allPharmacies db).map (fun p => p.id)).foldl max 1000 + 1,
          details.name, details.address, details.phone, loc.lat, loc.lon⟩] } =
        allPharmacies db ++
        [⟨((allPharmacies db).map (fun p => p.id)).foldl max 1000 + 1,
          details.name, details.address, details.phone, loc.lat, loc.lon⟩] := by
      simp [allPharmacies]
    rw [hall, List.map_append, List.nodup_append]
    refine ⟨hnodup, by simp, ?_⟩
    intro x hx
    have hxle : x ≤ ((allPharmacies db).map (fun p => p.id)).foldl max 1000 := hmax.2 x hx
    simp only [List.map_cons, List.map_nil, List.mem_singleton]
    omega

/-! ### Status-only update (C7) -/

theorem updateStockStatus_of_none {medicineName : String} {db : AppDatabase}
    (pharmacyId : Nat) (stock : StockStatus)
    (h : giFind db.globalInventory (toLowerCase medicineName) = none) :
    updateStockStatusInGlobalInventory pharmacyId medicineName stock db = db := by
  simp only [updateStockStatusInGlobalInventory, h]

theorem updateStockStatus_of_no_entry {medicineName : String} {db : AppDatabase}
    {coll : List StockEntry} (pharmacyId : Nat) (stock : StockStatus)
    (h : giFind db.globalInventory (toLowerCase medicineName) = some coll)
    (hno : coll.any (fun e => e.pharmacyId == pharmacyId) = false) :
    updateStockStatusInGlobalInventory pharmacyId medicineName stock db = db := by
  simp only [updateStockStatusInGlobalInventory, h, hno, Bool.false_eq_true, if_false]

theorem updateStockStatus_of_entry {medicineName : String} {db : AppDatabase}
    {coll : List StockEntry} (pharmacyId : Nat) (stock : StockStatus)
    (h : giFind db.globalInventory (toLowerCase medicineName) = some coll)
    (hyes : coll.any (fun e => e.pharmacyId == pharmacyId) = true) :
    updateStockStatusInGlobalInventory pharmacyId medicineName stock db =
      { db with globalInventory := (giSet db.globalInventory (toLowerCase medicineName)
          (setFirst (fun e => e.pharmacyId == pharmacyId)
            (fun e => { e with stock := stock }) coll)) } := by
  simp only [updateStockStatusInGlobalInventory, h, hyes, if_true]

/-- Any true `List.any` yields a first witness: a split whose front is
all-negative. -/
theorem exists_first_split {p : α → Bool} {l : List α} (h : l.any p = true) :
    ∃ l₁ x l₂, l = l₁ ++ x :: l₂ ∧ p x = true ∧ ∀ y ∈ l₁, p y = false := by
  induction l with
  | nil => simp at h
  | cons a as ih =>
      by_cases ha : p a = true
      · exact ⟨[], a, as, rfl, ha, by simp⟩
      · have h' : as.any p = true := by
          simp only [List.any_cons, Bool.or_eq_true] at h
          rcases h with h | h
          · exact absurd h ha
          · exact h
        obtain ⟨l₁, x, l₂, rfl, hx, hneg⟩ := ih h'
        refine ⟨a :: l₁, x, l₂, rfl, hx, ?_⟩
        intro y hy
        rcases List.mem_cons.mp hy with rfl | hy'
        · exact Bool.eq_false_iff.mpr ha
        · exact hneg y hy'

/-- C7: `updateStockStatusInGlobalInventory` is a strict no-op when the
key or the (medicine, pharmacy) entry is missing; when the entry
exists, only its `stock` field changes — its position, its price, the
rest of the collection, every other medicine key, and the pharmacy
registry are untouched. -/
theorem updateStockStatus_spec (pharmacyId : Nat) (medicineName : String)
    (stock : StockStatus) (db : AppDatabase) :
    (giFind db.globalInventory (toLowerCase medicineName) = none →
      updateStockStatusInGlobalInventory pharmacyId medicineName stock db = db) ∧
    (∀ coll, giFind db.globalInventory (toLowerCase medicineName) = some coll →
      coll.any (fun e => e.pharmacyId == pharmacyId) = false →
      updateStockStatusInGlobalInventory pharmacyId medicineName stock db = db) ∧
    (∀ coll, giFind db.globalInventory (toLowerCase medicineName) = some coll →
      coll.any (fun e => e.pharmacyId == pharmacyId) = true →
      ∃ l₁ e l₂, coll = l₁ ++ e :: l₂ ∧ e.pharmacyId = pharmacyId ∧
        (∀ y ∈ l₁, (y.pharmacyId == pharmacyId) = false) ∧
        giFind (updateStockStatusInGlobalInventory pharmacyId medicineName stock db).globalInventory
            (toLowerCase medicineName) =
          some (l₁ ++ ⟨e.pharmacyId, e.price, stock⟩ :: l₂) ∧
        (∀ k, k ≠ toLowerCase medicineName →
          giFind (updateStockStatusInGlobalInventory pharmacyId medicineName stock db).globalInventory k =
            giFind db.globalInventory k)) ∧
    (updateStockStatusInGlobalInventory pharmacyId medicineName stock db).dynamicPharmacies =
      db.dynamicPharmacies := by
  refine ⟨fun h => updateStockStatus_of_none pharmacyId stock h,
    fun coll h hno => updateStockStatus_of_no_entry pharmacyId stock h hno, ?_, ?_⟩
  · intro coll h hyes
    obtain ⟨l₁, e, l₂, rfl, hx, hneg⟩ := exists_first_split hyes
    refine ⟨l₁, e, l₂, rfl, by simpa using hx, hneg, ?_, ?_⟩
    · rw [updateStockStatus_of_entry pharmacyId stock h hyes]
      have hset : setFirst (fun e => e.pharmacyId == pharmacyId)
          (fun e => { e with stock := stock }) (l₁ ++ e :: l₂) =
          l₁ ++ ⟨e.pharmacyId, e.price, stock⟩ :: l₂ :=
        setFirst_eq_of_split hneg hx
      rw [hset]
      exact giFind_giSet_self (by rw [h]; rfl)
    · intro k hk
      rw [updateStockStatus_of_entry pharmacyId stock h hyes]
      exact giFind_giSet_ne hk
  · cases hf : giFind db.globalInventory (toLowerCase medicineName) with
    | none => rw [updateStockStatus_of_none pharmacyId stock hf]
    | some coll =>
        by_cases hany : coll.any (fun e => e.pharmacyId == pharmacyId) = true
        · rw [updateStockStatus_of_entry pharmacyId stock hf hany]
        · rw [updateStockStatus_of_no_entry pharmacyId stock hf (Bool.eq_false_iff.mpr hany)]

/-! ### The inventory-index well-formedness invariant (C5) -/

/-- Every present medicine key maps to a non-empty collection holding
at most one entry per pharmacy. -/
def InventoryWF (inv : GlobalInventory) : Prop :=
  ∀ pr ∈ inv, pr.2 ≠ [] ∧ (pr.2.map (fun e => e.pharmacyId)).Nodup

instance (inv : GlobalInventory) : Decidable (InventoryWF inv) := by
  unfold InventoryWF
  infer_instance

theorem giFind_mem {inv : GlobalInventory} {k : String} {coll : List StockEntry}
    (h : giFind inv k = some coll) : ∃ pr ∈ inv, pr.1 = k ∧ pr.2 = coll := by
  simp only [giFind] at h
  cases hf : inv.find? (fun pr => pr.1 == k) with
  | none => rw [hf] at h; simp at h
  | some pr =>
      rw [hf] at h
      refine ⟨pr, List.mem_of_find?_eq_some hf, ?_, ?_⟩
      · simpa using List.find?_some hf
      · simpa using h

theorem upsertColl_ne_nil (pid : Nat) (item : InventoryItem) (coll : List StockEntry) :
    upsertColl pid item coll ≠ [] := by
  by_cases h : coll.any (fun e => e.pharmacyId == pid) = true
  · rw [upsertColl_pos item h]
    intro hc
    have hlen := congrArg List.length hc
    rw [setFirst_length] at hlen
    have : coll = [] := List.length_eq_zero.mp hlen
    rw [this] at h
    simp at h
  · rw [upsertColl_neg item (Bool.eq_false_iff.mpr h)]
    simp

/-- `setFirst` with a pharmacy-id-preserving mutation leaves the list
of pharmacy ids unchanged. -/
theorem map_pharmacyId_setFirst (p : StockEntry → Bool) (f : StockEntry → StockEntry)
    (hpres : ∀ e, (f e).pharmacyId = e.pharmacyId) (coll : List StockEntry) :
    (setFirst p f coll).map (fun e => e.pharmacyId) =
      coll.map (fun e => e.pharmacyId) := by
  induction coll with
  | nil => rfl
  | cons a as ih =>
      by_cases hp : p a = true
      · simp [setFirst, hp, hpres]
      · simp [setFirst, hp, ih]

theorem upsertColl_nodup {coll : List StockEntry} {pid : Nat} (item : InventoryItem)
    (hnd : (coll.map (fun e => e.pharmacyId)).Nodup) :
    ((upsertColl pid item coll).map (fun e => e.pharmacyId)).Nodup := by
  by_cases h : coll.any (fun e => e.pharmacyId == pid) = true
  · rw [upsertColl_pos item h,
      map_pharmacyId_setFirst (fun e => e.pharmacyId == pid)
        (fun e => { e with price := item.price,
                           stock := item.stock.getD StockStatus.Available })
        (fun e => rfl) coll]
    exact hnd
  · rw [upsertColl_neg item (Bool.eq_false_iff.mpr h), List.map_append, List.nodup_append]
    refine ⟨hnd, by simp, ?_⟩
    intro x hx
    simp only [List.map_cons, List.map_nil, List.mem_singleton]
    intro hxpid
    obtain ⟨e, he, rfl⟩ := List.mem_map.mp hx
    have hfalse := List.any_eq_false.mp (Bool.eq_false_iff.mpr h) e he
    exact hfalse (by simp [hxpid])

theorem giSet_WF {inv : GlobalInventory} {k : String} {v : List StockEntry}
    (h : InventoryWF inv) (hv1 : v ≠ [])
    (hv2 : (v.map (fun e => e.pharmacyId)).Nodup) : InventoryWF (giSet inv k v) := by
  intro pr hpr
  obtain ⟨q, hq, rfl⟩ := List.mem_map.mp hpr
  by_cases hqk : (q.1 == k) = true
  · rw [if_pos hqk]
    exact ⟨hv1, hv2⟩
  · rw [if_neg hqk]
    exact h q hq

theorem upsertItem_WF {inv : GlobalInventory} (h : InventoryWF inv)
    (pid : Nat) (item : InventoryItem) : InventoryWF (upsertItem pid item inv) := by
  cases hf : giFind inv (toLowerCase item.medicineName) with
  | some coll =>
      rw [upsertItem_of_some pid hf]
      obtain ⟨pr0, hpr0, _, hc0⟩ := giFind_mem hf
      have hwf0 := h pr0 hpr0
      exact giSet_WF h (upsertColl_ne_nil pid item coll)
        (upsertColl_nodup item (hc0 ▸ hwf0.2))
  | none =>
      rw [upsertItem_of_none pid hf]
      intro pr hpr
      rcases List.mem_append.mp hpr with hin | hin
      · exact h pr hin
      · have hpr' : pr = (toLowerCase item.medicineName, upsertColl pid item []) := by
          simpa using hin
        subst hpr'
        refine ⟨upsertColl_ne_nil pid item [], ?_⟩
        simp [upsertColl, setFirst]

theorem upsertMany_WF {inv : GlobalInventory} (h : InventoryWF inv)
    (pid : Nat) (items : List InventoryItem) : InventoryWF (upsertMany pid items inv) := by
  induction items generalizing inv with
  | nil => exact h
  | cons it rest ih => exact ih (upsertItem_WF h pid it)

theorem updateStockStatus_WF {db : AppDatabase} (h : InventoryWF db.globalInventory)
    (pid : Nat) (med : String) (st : StockStatus) :
    InventoryWF (updateStockStatusInGlobalInventory pid med st db).globalInventory := by
  cases hf : giFind db.globalInventory (toLowerCase med) with
  | none => rw [updateStockStatus_of_none pid st hf]; exact h
  | some coll =>
      by_cases hany : coll.any (fun e => e.pharmacyId == pid) = true
      · rw [updateStockStatus_of_entry pid st hf hany]
        obtain ⟨pr0, hpr0, _, hc0⟩ := giFind_mem hf
        have hwf0 := h pr0 hpr0
        apply giSet_WF h
        · intro hc
          have hlen := congrArg List.length hc
          rw [setFirst_length] at hlen
          exact (hc0 ▸ hwf0.1) (List.length_eq_zero.mp hlen)
        · rw [map_pharmacyId_setFirst (fun e => e.pharmacyId == pid)
            (fun e => { e with stock := st }) (fun e => rfl) coll]
          exact hc0 ▸ hwf0.2
      · rw [updateStockStatus_of_no_entry pid st hf (Bool.eq_false_iff.mpr hany)]
        exact h

theorem deleteFrom_of_none {db : AppDatabase} {med : String} (pid : Nat)
    (h : giFind db.globalInventory (toLowerCase med) = none) :
    deleteFromGlobalInventory pid med db = db := by
  simp only [deleteFromGlobalInventory, h]

theorem deleteFrom_of_some_empty {db : AppDatabase} {med : String}
    {coll : List StockEntry} (pid : Nat)
    (h : giFind db.globalInventory (toLowerCase med) = some coll)
    (he : coll.filter (fun e => !(e.pharmacyId == pid)) = []) :
    deleteFromGlobalInventory pid med db =
      { db with globalInventory := giDelete db.globalInventory (toLowerCase med) } := by
  simp only [deleteFromGlobalInventory, h, he]
  rfl

theorem deleteFrom_of_some_nonempty {db : AppDatabase} {med : String}
    {coll : List StockEntry} (pid : Nat)
    (h : giFind db.globalInventory (toLowerCase med) = some coll)
    (he : coll.filter (fun e => !(e.pharmacyId == pid)) ≠ []) :
    deleteFromGlobalInventory pid med db =
      { db with globalInventory := (giSet db.globalInventory (toLowerCase med)
          (coll.filter (fun e => !(e.pharmacyId == pid)))) } := by
  simp only [deleteFromGlobalInventory, h]
  rw [if_neg (by simpa [List.length_eq_zero] using he)]

theorem deleteFrom_WF {db : AppDatabase} (h : InventoryWF db.globalInventory)
    (pid : Nat) (med : String) :
    InventoryWF (deleteFromGlobalInventory pid med db).globalInventory := by
  cases hf : giFind db.globalInventory (toLowerCase med) with
  | none => rw [deleteFrom_of_none pid hf]; exact h
  | some coll =>
      by_cases he : coll.filter (fun e => !(e.pharmacyId == pid)) = []
      · rw [deleteFrom_of_some_empty pid hf he]
        intro pr hpr
        exact h pr (List.mem_of_mem_filter hpr)
      · rw [deleteFrom_of_some_nonempty pid hf he]
        obtain ⟨pr0, hpr0, _, hc0⟩ := giFind_mem hf
        have hwf0 := h pr0 hpr0
        apply giSet_WF h he
        have hsub : (coll.filter (fun e => !(e.pharmacyId == pid))).Sublist coll :=
          List.filter_sublist coll
        exact List.Nodup.sublist (hsub.map (fun e => e.pharmacyId)) (hc0 ▸ hwf0.2)

theorem giFind_giDelete_self (inv : GlobalInventory) (k : String) :
    giFind (giDelete inv k) k = none := by
  have hnone : (giDelete inv k).find? (fun pr => pr.1 == k) = none := by
    rw [List.find?_eq_none]
    intro pr hpr
    have h2 := (List.mem_filter.mp hpr).2
    simpa using h2
  simp [giFind, hnone]

/-- C5: the well-formedness invariant is preserved by `upsertMany`,
`setStatus` and `remove`; and `remove` deletes a key it empties, so
`hasMedicine` is false afterwards. -/
theorem inventory_invariant_preserved (pid : Nat) (med : String) (st : StockStatus)
    (items : List InventoryItem) (db : AppDatabase) :
    (InventoryWF db.globalInventory →
      InventoryWF (updateGlobalInventory pid items db).globalInventory) ∧
    (InventoryWF db.globalInventory →
      InventoryWF (updateStockStatusInGlobalInventory pid med st db).globalInventory) ∧
    (InventoryWF db.globalInventory →
      InventoryWF (deleteFromGlobalInventory pid med db).globalInventory) ∧
    (∀ coll, giFind db.globalInventory (toLowerCase med) = some coll →
      coll.filter (fun e => !(e.pharmacyId == pid)) = [] →
      giFind (deleteFromGlobalInventory pid med db).globalInventory (toLowerCase med) = none ∧
      checkMedicineLocally med (deleteFromGlobalInventory pid med db) = false) := by
  refine ⟨fun h => upsertMany_WF h pid items, fun h => updateStockStatus_WF h pid med st,
    fun h => deleteFrom_WF h pid med, ?_⟩
  intro coll h he
  rw [deleteFrom_of_some_empty pid h he]
  constructor
  · exact giFind_giDelete_self db.globalInventory (toLowerCase med)
  · simp only [checkMedicineLocally, giFind_giDelete_self]

/-! ### Frame conditions of `upsertMany` (C10) -/

theorem upsertItem_filter_other (pid : Nat) (it : InventoryItem)
    (inv : GlobalInventory) (k : String) :
    ((giFind (upsertItem pid it inv) k).getD []).filter (fun e => !(e.pharmacyId == pid)) =
    ((giFind inv k).getD []).filter (fun e => !(e.pharmacyId == pid)) := by
  by_cases hk : toLowerCase it.medicineName = k
  · subst hk
    cases hf : giFind inv (toLowerCase it.medicineName) with
    | some coll =>
        rw [upsertItem_of_some pid hf, giFind_giSet_self (by rw [hf]; rfl)]
        simp only [Option.getD_some]
        by_cases hany : coll.any (fun e => e.pharmacyId == pid) = true
        · rw [upsertColl_pos it hany]
          exact filter_setFirst_of_disjoint coll (fun x hx => by simp [by simpa using hx])
            (fun x => rfl)
        · rw [upsertColl_neg it (Bool.eq_false_iff.mpr hany), List.filter_append]
          simp
    | none =>
        rw [upsertItem_of_none pid hf, giFind_none_append hf]
        simp [upsertColl, setFirst]
  · rw [giFind_upsertItem_ne hk]

theorem upsertMany_filter_other (pid : Nat) (items : List InventoryItem)
    (inv : GlobalInventory) (k : String) :
    ((giFind (upsertMany pid items inv) k).getD []).filter (fun e => !(e.pharmacyId == pid)) =
    ((giFind inv k).getD []).filter (fun e => !(e.pharmacyId == pid)) := by
  induction items generalizing inv with
  | nil => rfl
  | cons it rest ih =>
      rw [upsertMany_cons, ih (upsertItem pid it inv), upsertItem_filter_other]

theorem upsertMany_giFind_untouched {pid : Nat} {items : List InventoryItem}
    {inv : GlobalInventory} {k : String}
    (h : ∀ it ∈ items, toLowerCase it.medicineName ≠ k) :
    giFind (upsertMany pid items inv) k = giFind inv k := by
  induction items generalizing inv with
  | nil => rfl
  | cons it rest ih =>
      rw [upsertMany_cons, ih (fun q hq => h q (List.mem_cons_of_mem it hq)),
        giFind_upsertItem_ne (h it (List.mem_cons_self it rest))]

/-- C10: `upsertMany` only touches what the batch names — keys not
named by any item keep their collection, entries of other pharmacies
are untouched under every key, and the registry is unchanged. -/
theorem updateGlobalInventory_frame (pid : Nat) (items : List InventoryItem)
    (db : AppDatabase) :
    (∀ k, k ∉ items.map (fun it => toLowerCase it.medicineName) →
      giFind (updateGlobalInventory pid items db).globalInventory k =
        giFind db.globalInventory k) ∧
    (∀ k, ((giFind (updateGlobalInventory pid items db).globalInventory k).getD []).filter
        (fun e => !(e.pharmacyId == pid)) =
      ((giFind db.globalInventory k).getD []).filter (fun e => !(e.pharmacyId == pid))) ∧
    (updateGlobalInventory pid items db).dynamicPharmacies = db.dynamicPharmacies := by
  refine ⟨?_, ?_, rfl⟩
  · intro k hk
    apply upsertMany_giFind_untouched
    intro it hit hkey
    exact hk (List.mem_map.mpr ⟨it, hit, hkey⟩)
  · intro k
    exact upsertMany_filter_other pid items db.globalInventory k

/-! ### Structure of the `findNearbyPharmacies` result (C1) -/

/-- Clearing the best-option flag, for relating the marked result list
to the unmarked pipeline stages. -/
def clearBest (p : RankedPharmacy) : RankedPharmacy := { p with isBestOption := false }

theorem combinedResults_eq (dist : Location → Location → Rat) (loc : Location)
    (med : String) (db : AppDatabase) :
    combinedResults dist loc med db =
      availablePharmacies dist loc med db ++
        (sortedUnavailable dist loc med db).take
          (MAX_RESULTS - (availablePharmacies dist loc med db).length) := by
  simp only [combinedResults, MAX_RESULTS]
  split
  · rename_i h
    have hc : (((15 : Nat) : Int) - (availablePharmacies dist loc med db).length).toNat =
        15 - (availablePharmacies dist loc med db).length := by omega
    rw [hc]
  · rename_i h
    have hc : 15 - (availablePharmacies dist loc med db).length = 0 := by omega
    rw [hc, List.take_zero, List.append_nil]

theorem mem_pharmaciesWithDetails_flag {dist : Location → Location → Rat}
    {loc : Location} {med : String} {db : AppDatabase} {p : RankedPharmacy}
    (hp : p ∈ pharmaciesWithDetails dist loc med db) : p.isBestOption = false := by
  obtain ⟨q, _, rfl⟩ := List.mem_map.mp hp
  rfl

theorem mem_available_subset {dist : Location → Location → Rat} {loc : Location}
    {med : String} {db : AppDatabase} {p : RankedPharmacy}
    (hp : p ∈ availablePharmacies dist loc med db) :
    p ∈ pharmaciesWithDetails dist loc med db :=
  (List.mem_filter.mp hp).1

theorem mem_unavailable_subset {dist : Location → Location → Rat} {loc : Location}
    {med : String} {db : AppDatabase} {p : RankedPharmacy}
    (hp : p ∈ unavailablePharmacies dist loc med db) :
    p ∈ pharmaciesWithDetails dist loc med db :=
  (List.mem_filter.mp hp).1

theorem mem_sortedUnavailable_iff {dist : Location → Location → Rat} {loc : Location}
    {med : String} {db : AppDatabase} {p : RankedPharmacy} :
    p ∈ sortedUnavailable dist loc med db ↔ p ∈ unavailablePharmacies dist loc med db :=
  (List.perm_insertionSort distLE (unavailablePharmacies dist loc med db)).mem_iff

theorem mem_combined_subset {dist : Location → Location → Rat} {loc : Location}
    {med : String} {db : AppDatabase} {p : RankedPharmacy}
    (hp : p ∈ combinedResults dist loc med db) :
    p ∈ pharmaciesWithDetails dist loc med db := by
  rw [combinedResults_eq] at hp
  rcases List.mem_append.mp hp with h | h
  · exact mem_available_subset h
  · exact mem_unavailable_subset
      (mem_sortedUnavailable_iff.mp ((List.take_sublist _ _).subset h))

theorem mem_combined_flag {dist : Location → Location → Rat} {loc : Location}
    {med : String} {db : AppDatabase} {p : RankedPharmacy}
    (hp : p ∈ combinedResults dist loc med db) : p.isBestOption = false :=
  mem_pharmaciesWithDetails_flag (mem_combined_subset hp)

theorem clearBest_of_flag_false {p : RankedPharmacy} (h : p.isBestOption = false) :
    clearBest p = p := by
  cases p
  simp only [clearBest]
  simp_all

theorem map_clearBest_of_flags {l : List RankedPharmacy}
    (h : ∀ p ∈ l, p.isBestOption = false) : l.map clearBest = l := by
  induction l with
  | nil => rfl
  | cons a as ih =>
      rw [List.map_cons, clearBest_of_flag_false (h a (List.mem_cons_self a as)),
        ih (fun q hq => h q (List.mem_cons_of_mem a hq))]

theorem map_clearBest_markBest (b : RankedPharmacy) (l : List RankedPharmacy) :
    (markBest b l).map clearBest = l.map clearBest := by
  simp only [markBest]
  induction l with
  | nil => rfl
  | cons a as ih =>
      by_cases hp : (a.base.id == b.base.id) = true
      · simp [setFirst, hp, clearBest]
      · simp [setFirst, hp, ih]

theorem map_clearBest_findNearby (dist : Location → Location → Rat) (loc : Location)
    (med : String) (db : AppDatabase) :
    (findNearbyPharmacies dist loc med db).map clearBest =
      combinedResults dist loc med db := by
  have hflags : ∀ p ∈ combinedResults dist loc med db, p.isBestOption = false :=
    fun p hp => mem_combined_flag hp
  simp only [findNearbyPharmacies]
  cases hb : bestOption dist loc med db with
  | none => exact map_clearBest_of_flags hflags
  | some b => rw [map_clearBest_markBest, map_clearBest_of_flags hflags]

theorem markBest_length (b : RankedPharmacy) (l : List RankedPharmacy) :
    (markBest b l).length = l.length := setFirst_length _ _ l

theorem findNearby_length_eq_combined (dist : Location → Location → Rat)
    (loc : Location) (med : String) (db : AppDatabase) :
    (findNearbyPharmacies dist loc med db).length =
      (combinedResults dist loc med db).length := by
  simp only [findNearbyPharmacies]
  cases bestOption dist loc med db with
  | none => rfl
  | some b => exact markBest_length b _

/-- C1: the result is all available pharmacies followed by the nearest
unavailable ones up to the cap of 15: stripped of the best-option flag
it is literally `available ++ take (15 - k) sortedOther`, the appended
block is sorted by rounded distance and consists of the nearest of the
others, the total length is `max k (min 15 (k + len other))`, and every
available entry occurs in the result. -/
theorem findNearby_result_structure (dist : Location → Location → Rat)
    (loc : Location) (med : String) (db : AppDatabase) :
    (findNearbyPharmacies dist loc med db).map clearBest =
      availablePharmacies dist loc med db ++
        (sortedUnavailable dist loc med db).take
          (MAX_RESULTS - (availablePharmacies dist loc med db).length) ∧
    List.Sorted distLE ((sortedUnavailable dist loc med db).take
      (MAX_RESULTS - (availablePharmacies dist loc med db).length)) ∧
    (∀ x ∈ (sortedUnavailable dist loc med db).take
        (MAX_RESULTS - (availablePharmacies dist loc med db).length),
      ∀ y ∈ (sortedUnavailable dist loc med db).drop
        (MAX_RESULTS - (availablePharmacies dist loc med db).length),
      x.distance ≤ y.distance) ∧
    (findNearbyPharmacies dist loc med db).length =
      max (availablePharmacies dist loc med db).length
        (min MAX_RESULTS ((availablePharmacies dist loc med db).length +
          (unavailablePharmacies dist loc med db).length)) ∧
    (∀ a ∈ availablePharmacies dist loc med db,
      ∃ r ∈ findNearbyPharmacies dist loc med db, clearBest r = a) := by
  have hsorted : List.Sorted distLE (sortedUnavailable dist loc med db) :=
    List.sorted_insertionSort distLE (unavailablePharmacies dist loc med db)
  have hmap : (findNearbyPharmacies dist loc med db).map clearBest =
      availablePharmacies dist loc med db ++
        (sortedUnavailable dist loc med db).take
          (MAX_RESULTS - (availablePharmacies dist loc med db).length) := by
    rw [map_clearBest_findNearby, combinedResults_eq]
  refine ⟨hmap, ?_, ?_, ?_, ?_⟩
  · exact List.Pairwise.sublist (List.take_sublist _ _) hsorted
  · intro x hx y hy
    have hsplit := List.take_append_drop
      (MAX_RESULTS - (availablePharmacies dist loc med db).length)
      (sortedUnavailable dist loc med db)
    rw [← hsplit] at hsorted
    exact (List.pairwise_append.mp hsorted).2.2 x hx y hy
  · rw [findNearby_length_eq_combined, combinedResults_eq, List.length_append,
      List.length_take]
    have hlen : (sortedUnavailable dist loc med db).length =
        (unavailablePharmacies dist loc med db).length :=
      List.length_insertionSort distLE _
    rw [hlen]
    simp only [MAX_RESULTS]
    omega
  · intro a ha
    have : a ∈ (findNearbyPharmacies dist loc med db).map clearBest := by
      rw [hmap]
      exact List.mem_append_left _ ha
    obtain ⟨r, hr, hra⟩ := List.mem_map.mp this
    exact ⟨r, hr, hra⟩

/-! ### Per-entry fields of the result (C8) -/

theorem lastEntryFor_of_hasEntry {coll : List StockEntry} {id : Nat}
    (h : hasEntryFor coll id = true) :
    ∃ se, lastEntryFor coll id = some se ∧ se.pharmacyId = id := by
  have hrev : coll.reverse.any (fun e => e.pharmacyId == id) = true := by
    rw [List.any_reverse]
    exact h
  have hsome : (coll.reverse.find? (fun e => e.pharmacyId == id)).isSome = true := by
    rw [List.find?_isSome]
    simpa using List.any_eq_true.mp hrev
  obtain ⟨se, hse⟩ := Option.isSome_iff_exists.mp hsome
  refine ⟨se, hse, ?_⟩
  simpa using List.find?_some hse

theorem toRanked_fields (dist : Location → Location → Rat) (loc : Location)
    (coll : List StockEntry) (q : BasePharmacy) :
    (toRanked dist loc coll q).base = q ∧
    (toRanked dist loc coll q).distance = round1 (dist loc ⟨q.lat, q.lon⟩) ∧
    (hasEntryFor coll q.id = true →
      ∃ se, lastEntryFor coll q.id = some se ∧
        (toRanked dist loc coll q).price = se.price ∧
        (toRanked dist loc coll q).stock = se.stock ∧
        (toRanked dist loc coll q).priceUnit = "per strip") ∧
    (hasEntryFor coll q.id = false →
      (toRanked dist loc coll q).price = 0 ∧
      (toRanked dist loc coll q).priceUnit = "-" ∧
      (toRanked dist loc coll q).stock = StockStatus.Unavailable) := by
  refine ⟨rfl, rfl, ?_, ?_⟩
  · intro h
    obtain ⟨se, hse, hpid⟩ := lastEntryFor_of_hasEntry h
    exact ⟨se, hse, by simp [toRanked, h, hse], by simp [toRanked, h, hse],
      by simp [toRanked, h]⟩
  · intro h
    exact ⟨by simp [toRanked, h], by simp [toRanked, h], by simp [toRanked, h]⟩

theorem mem_findNearby_cases {dist : Location → Location → Rat} {loc : Location}
    {med : String} {db : AppDatabase} {e : RankedPharmacy}
    (he : e ∈ findNearbyPharmacies dist loc med db) :
    e ∈ pharmaciesWithDetails dist loc med db ∨
    ∃ e' ∈ pharmaciesWithDetails dist loc med db, e = { e' with isBestOption := true } := by
  simp only [findNearbyPharmacies] at he
  cases hb : bestOption dist loc med db with
  | none =>
      rw [hb] at he
      exact Or.inl (mem_combined_subset he)
  | some b =>
      rw [hb] at he
      simp only [markBest] at he
      rcases mem_setFirst he with h | ⟨y, hy, rfl⟩
      · exact Or.inl (mem_combined_subset h)
      · exact Or.inr ⟨y, mem_combined_subset hy, rfl⟩

/-- C8: every result entry carries the rounded distance; an entry whose
pharmacy has a stock record for the queried medicine carries that
record's price/stock and the unit label `"per strip"`, and an entry
without one carries price 0, unit `"-"` and `Unavailable`. -/
theorem findNearby_entry_fields (dist : Location → Location → Rat) (loc : Location)
    (med : String) (db : AppDatabase) :
    ∀ e ∈ findNearbyPharmacies dist loc med db,
      e.distance = round1 (dist loc ⟨e.base.lat, e.base.lon⟩) ∧
      (hasEntryFor (stockEntriesFor db med) e.base.id = true →
        ∃ se, lastEntryFor (stockEntriesFor db med) e.base.id = some se ∧
          e.price = se.price ∧ e.stock = se.stock ∧ e.priceUnit = "per strip") ∧
      (hasEntryFor (stockEntriesFor db med) e.base.id = false →
        e.price = 0 ∧ e.priceUnit = "-" ∧ e.stock = StockStatus.Unavailable) := by
  intro e he
  rcases mem_findNearby_cases he with h | ⟨e', he', rfl⟩
  · obtain ⟨q, hq, rfl⟩ := List.mem_map.mp h
    have hf := toRanked_fields dist loc (stockEntriesFor db med) q
    exact ⟨hf.2.1, hf.2.2.1, hf.2.2.2⟩
  · obtain ⟨q, hq, rfl⟩ := List.mem_map.mp he'
    have hf := toRanked_fields dist loc (stockEntriesFor db med) q
    exact ⟨hf.2.1, hf.2.2.1, hf.2.2.2⟩

/-! ### Best-option selection (C2) -/

theorem bestOption_of_nil {dist : Location → Location → Rat} {loc : Location}
    {med : String} {db : AppDatabase}
    (h : availablePharmacies dist loc med db = []) :
    bestOption dist loc med db = none := by
  simp only [bestOption, h]

theorem bestOption_of_cons {dist : Location → Location → Rat} {loc : Location}
    {med : String} {db : AppDatabase} {a : RankedPharmacy} {as : List RankedPharmacy}
    (h : availablePharmacies dist loc med db = a :: as) :
    bestOption dist loc med db = some (as.foldl bestReduce a) := by
  simp only [bestOption, h]

theorem findNearby_of_none {dist : Location → Location → Rat} {loc : Location}
    {med : String} {db : AppDatabase} (h : bestOption dist loc med db = none) :
    findNearbyPharmacies dist loc med db = combinedResults dist loc med db := by
  simp only [findNearbyPharmacies, h]

theorem findNearby_of_some {dist : Location → Location → Rat} {loc : Location}
    {med : String} {db : AppDatabase} {b : RankedPharmacy}
    (h : bestOption dist loc med db = some b) :
    findNearbyPharmacies dist loc med db =
      markBest b (combinedResults dist loc med db) := by
  simp only [findNearbyPharmacies, h]

/-- The `reduce` picks the first element attaining the minimal score:
everything before it scores strictly higher, everything at all scores
no lower. -/
theorem foldl_bestReduce_spec (a : RankedPharmacy) (as : List RankedPharmacy) :
    ∃ l1 l2, a :: as = l1 ++ (as.foldl bestReduce a) :: l2 ∧
      (∀ q ∈ l1, score (as.foldl bestReduce a) < score q) ∧
      (∀ q ∈ a :: as, score (as.foldl bestReduce a) ≤ score q) := by
  induction as generalizing a with
  | nil => exact ⟨[], [], rfl, by simp, by simp⟩
  | cons c t ih =>
      rw [List.foldl_cons]
      by_cases hc : score c < score a
      · have hred : bestReduce a c = c := if_pos hc
        rw [hred]
        obtain ⟨l1, l2, hsplit, hmin1, hmin2⟩ := ih c
        refine ⟨a :: l1, l2, ?_, ?_, ?_⟩
        · rw [List.cons_append, ← hsplit]
        · intro q hq
          rcases List.mem_cons.mp hq with rfl | hq'
          · exact lt_of_le_of_lt (hmin2 c (List.mem_cons_self c t)) hc
          · exact hmin1 q hq'
        · intro q hq
          rcases List.mem_cons.mp hq with rfl | hq'
          · exact le_of_lt (lt_of_le_of_lt (hmin2 c (List.mem_cons_self c t)) hc)
          · exact hmin2 q hq'
      · have hred : bestReduce a c = a := if_neg hc
        rw [hred]
        have hac : score a ≤ score c := le_of_not_lt hc
        obtain ⟨l1, l2, hsplit, hmin1, hmin2⟩ := ih a
        cases l1 with
        | nil =>
            rw [List.nil_append] at hsplit
            injection hsplit with hBa hl2
            refine ⟨[], c :: t, ?_, by simp, ?_⟩
            · rw [List.nil_append, ← hBa]
            · intro q hq
              rcases List.mem_cons.mp hq with rfl | hq'
              · rw [← hBa]
              · rcases List.mem_cons.mp hq' with rfl | hq''
                · rw [← hBa]
                  exact hac
                · exact hmin2 q (List.mem_cons_of_mem a hq'')
        | cons x l1' =>
            rw [List.cons_append] at hsplit
            injection hsplit with hax ht
            have hBlt : score (t.foldl bestReduce a) < score a := by
              have hx := hmin1 x (List.mem_cons_self x l1')
              rw [← hax] at hx
              exact hx
            refine ⟨a :: c :: l1', l2, ?_, ?_, ?_⟩
            · rw [List.cons_append, List.cons_append, ← ht]
            · intro q hq
              rcases List.mem_cons.mp hq with rfl | hq'
              · exact hBlt
              · rcases List.mem_cons.mp hq' with rfl | hq''
                · exact lt_of_lt_of_le hBlt hac
                · have hx := hmin1 q (List.mem_cons_of_mem x hq'')
                  exact hx
            · intro q hq
              rcases List.mem_cons.mp hq with rfl | hq'
              · exact hmin2 q (List.mem_cons_self q t)
              · rcases List.mem_cons.mp hq' with rfl | hq''
                · exact le_trans (hmin2 a (List.mem_cons_self a t)) hac
                · exact hmin2 q (List.mem_cons_of_mem a hq'')

theorem withDetails_map_base {β : Type} (g : BasePharmacy → β)
    (dist : Location → Location → Rat) (loc : Location) (med : String)
    (db : AppDatabase) :
    (pharmaciesWithDetails dist loc med db).map (fun p => g p.base) =
      (allPharmacies db).map g := by
  simp only [pharmaciesWithDetails, List.map_map]
  rfl

theorem combined_map_base_nodup {β : Type} (g : BasePharmacy → β)
    (dist : Location → Location → Rat) (loc : Location) (med : String)
    (db : AppDatabase) (hg : ((allPharmacies db).map g).Nodup) :
    ((combinedResults dist loc med db).map (fun p => g p.base)).Nodup := by
  have hwd : ((pharmaciesWithDetails dist loc med db).map (fun p => g p.base)).Nodup := by
    rw [withDetails_map_base]
    exact hg
  have havail : ((availablePharmacies dist loc med db).map (fun p => g p.base)).Sublist
      ((pharmaciesWithDetails dist loc med db).map (fun p => g p.base)) := by
    simp only [availablePharmacies]
    exact (List.filter_sublist _).map _
  have hunav : ((unavailablePharmacies dist loc med db).map (fun p => g p.base)).Sublist
      ((pharmaciesWithDetails dist loc med db).map (fun p => g p.base)) := by
    simp only [unavailablePharmacies]
    exact (List.filter_sublist _).map _
  have hsortperm : ((sortedUnavailable dist loc med db).map (fun p => g p.base)).Perm
      ((unavailablePharmacies dist loc med db).map (fun p => g p.base)) :=
    (List.perm_insertionSort distLE _).map _
  rw [combinedResults_eq, List.map_append, List.nodup_append]
  refine ⟨List.Nodup.sublist havail hwd, ?_, ?_⟩
  · have hsortnodup : ((sortedUnavailable dist loc med db).map (fun p => g p.base)).Nodup :=
      (hsortperm.symm).nodup (List.Nodup.sublist hunav hwd)
    exact List.Nodup.sublist ((List.take_sublist _ _).map _) hsortnodup
  · intro x hx hx2
    obtain ⟨a, ha, rfl⟩ := List.mem_map.mp hx
    obtain ⟨u, hu, hequ⟩ := List.mem_map.mp hx2
    have ha' : a ∈ pharmaciesWithDetails dist loc med db := mem_available_subset ha
    have huu : u ∈ unavailablePharmacies dist loc med db :=
      mem_sortedUnavailable_iff.mp ((List.take_sublist _ _).subset hu)
    have hu' : u ∈ pharmaciesWithDetails dist loc med db := mem_unavailable_subset huu
    have hua : u = a := List.inj_on_of_nodup_map hwd hu' ha' hequ
    have hsa : (a.stock == StockStatus.Available) = true := (List.mem_filter.mp ha).2
    have hsu : (!(u.stock == StockStatus.Available)) = true := (List.mem_filter.mp huu).2
    rw [hua] at hsu
    simp [hsa] at hsu

theorem markBest_unique_split {b : RankedPharmacy} {l : List RankedPharmacy}
    (hmem : b ∈ l) (hnodup : (l.map (fun p => p.base.id)).Nodup) :
    ∃ l1 l2, l = l1 ++ b :: l2 ∧
      markBest b l = l1 ++ { b with isBestOption := true } :: l2 := by
  obtain ⟨l1, l2, rfl⟩ := List.append_of_mem hmem
  refine ⟨l1, l2, rfl, ?_⟩
  apply setFirst_eq_of_split
  · intro y hy
    by_contra hcon
    have hyb : y.base.id = b.base.id := by
      have := Bool.not_eq_false _ |>.mp hcon
      simpa using this
    rw [List.map_append, List.map_cons, List.nodup_append] at hnodup
    exact hnodup.2.2 (List.mem_map.mpr ⟨y, hy, rfl⟩)
      (by rw [hyb]; exact List.mem_cons_self _ _)
  · simp

/-- C2: when at least one pharmacy is available, exactly one result
entry carries `isBestOption = true`, namely the first available
pharmacy (in traversal order, over all available ones, not only those
within the cap) minimizing `score = distance * 10 + price`; with no
available pharmacy no entry is marked. -/
theorem findNearby_best_option (dist : Location → Location → Rat) (loc : Location)
    (med : String) (db : AppDatabase)
    (hids : ((allPharmacies db).map (fun p => p.id)).Nodup) :
    (availablePharmacies dist loc med db = [] →
      ∀ r ∈ findNearbyPharmacies dist loc med db, r.isBestOption = false) ∧
    (∀ a as, availablePharmacies dist loc med db = a :: as →
      ∃ b l1 l2,
        availablePharmacies dist loc med db = l1 ++ b :: l2 ∧
        (∀ q ∈ l1, score b < score q) ∧
        (∀ q ∈ availablePharmacies dist loc med db, score b ≤ score q) ∧
        b.stock = StockStatus.Available ∧
        ∃ r ∈ findNearbyPharmacies dist loc med db,
          r = { b with isBestOption := true } ∧
          ∀ r' ∈ findNearbyPharmacies dist loc med db,
            r'.isBestOption = true → r' = r) := by
  constructor
  · intro h r hr
    rw [findNearby_of_none (bestOption_of_nil h)] at hr
    exact mem_combined_flag hr
  · intro a as hav
    obtain ⟨l1, l2, hsplit, hmin1, hmin2⟩ := foldl_bestReduce_spec a as
    refine ⟨as.foldl bestReduce a, l1, l2, by rw [hav, hsplit], hmin1, ?_, ?_, ?_⟩
    · intro q hq
      rw [hav] at hq
      exact hmin2 q hq
    · have hbmem : as.foldl bestReduce a ∈ availablePharmacies dist loc med db := by
        rw [hav, hsplit]
        exact List.mem_append_right l1 (List.mem_cons_self _ _)
      have := (List.mem_filter.mp hbmem).2
      simpa using this
    · have hbmem : as.foldl bestReduce a ∈ availablePharmacies dist loc med db := by
        rw [hav, hsplit]
        exact List.mem_append_right l1 (List.mem_cons_self _ _)
      have hbcomb : as.foldl bestReduce a ∈ combinedResults dist loc med db := by
        rw [combinedResults_eq]
        exact List.mem_append_left _ hbmem
      have hcombnodup : ((combinedResults dist loc med db).map
          (fun p => p.base.id)).Nodup :=
        combined_map_base_nodup (fun p => p.id) dist loc med db hids
      obtain ⟨m1, m2, hcsplit, hmark⟩ := markBest_unique_split hbcomb hcombnodup
      have hres : findNearbyPharmacies dist loc med db =
          m1 ++ { as.foldl bestReduce a with isBestOption := true } :: m2 := by
        rw [findNearby_of_some (bestOption_of_cons hav), hmark]
      refine ⟨{ as.foldl bestReduce a with isBestOption := true }, ?_, rfl, ?_⟩
      · rw [hres]
        exact List.mem_append_right m1 (List.mem_cons_self _ _)
      · intro r' hr' hflag
        rw [hres] at hr'
        rcases List.mem_append.mp hr' with h1 | h2
        · exfalso
          have : r' ∈ combinedResults dist loc med db := by
            rw [hcsplit]
            exact List.mem_append_left _ h1
          rw [mem_combined_flag this] at hflag
          exact Bool.false_ne_true hflag
        · rcases List.mem_cons.mp h2 with rfl | h3
          · rfl
          · exfalso
            have : r' ∈ combinedResults dist loc med db := by
              rw [hcsplit]
              exact List.mem_append_right _ (List.mem_cons_of_mem _ h3)
            rw [mem_combined_flag this] at hflag
            exact Bool.false_ne_true hflag

/-! ### The deduplicated listing vs the list findNearby iterates (C9) -/

theorem jsMapSet_of_absent {m : List (String × BasePharmacy)} {k : String}
    (v : BasePharmacy) (h : ∀ pr ∈ m, pr.1 ≠ k) :
    jsMapSet k v m = m ++ [(k, v)] := by
  simp only [jsMapSet]
  rw [if_neg]
  intro hany
  obtain ⟨pr, hpr, hbeq⟩ := List.any_eq_true.mp hany
  exact h pr hpr (by simpa using hbeq)

theorem foldl_jsMapSet_of_nodup (ps : List BasePharmacy)
    (acc : List (String × BasePharmacy))
    (hdisj : ∀ p ∈ ps, ∀ pr ∈ acc, pr.1 ≠ toLowerCase p.name)
    (hnd : (ps.map (fun p => toLowerCase p.name)).Nodup) :
    ps.foldl (fun m p => jsMapSet (toLowerCase p.name) p m) acc =
      acc ++ ps.map (fun p => (toLowerCase p.name, p)) := by
  induction ps generalizing acc with
  | nil => simp
  | cons p rest ih =>
      rw [List.foldl_cons,
        jsMapSet_of_absent p (fun pr hpr => hdisj p (List.mem_cons_self p rest) pr hpr)]
      rw [List.map_cons, List.nodup_cons] at hnd
      have hdisj' : ∀ q ∈ rest, ∀ pr ∈ acc ++ [(toLowerCase p.name, p)],
          pr.1 ≠ toLowerCase q.name := by
        intro q hq pr hpr
        rcases List.mem_append.mp hpr with hin | hin
        · exact hdisj q (List.mem_cons_of_mem p hq) pr hin
        · have hpr' : pr = (toLowerCase p.name, p) := by simpa using hin
          rw [hpr']
          intro hcon
          have hcon' : toLowerCase p.name = toLowerCase q.name := hcon
          apply hnd.1
          rw [hcon']
          exact List.mem_map.mpr ⟨q, hq, rfl⟩
      rw [ih (acc ++ [(toLowerCase p.name, p)]) hdisj' hnd.2, List.append_assoc]
      rfl

theorem dedupByName_of_nodup {ps : List BasePharmacy}
    (h : (ps.map (fun p => toLowerCase p.name)).Nodup) : dedupByName ps = ps := by
  unfold dedupByName
  rw [foldl_jsMapSet_of_nodup ps [] (by simp) h, List.nil_append, List.map_map]
  have : ((fun pr : String × BasePharmacy => pr.2) ∘ fun p : BasePharmacy =>
      (toLowerCase p.name, p)) = fun p => p := rfl
  rw [this]
  exact List.map_id ps

theorem map_base_markBest {β : Type} (g : BasePharmacy → β) (b : RankedPharmacy)
    (l : List RankedPharmacy) :
    (markBest b l).map (fun p => g p.base) = l.map (fun p => g p.base) := by
  simp only [markBest]
  induction l with
  | nil => rfl
  | cons a as ih =>
      by_cases hp : (a.base.id == b.base.id) = true
      · simp [setFirst, hp]
      · simp [setFirst, hp, ih]

theorem withDetails_map_base_id (dist : Location → Location → Rat) (loc : Location)
    (med : String) (db : AppDatabase) :
    (pharmaciesWithDetails dist loc med db).map (fun p => p.base) = allPharmacies db := by
  simp only [pharmaciesWithDetails, List.map_map]
  have : ((fun p : RankedPharmacy => p.base) ∘
      toRanked dist loc (stockEntriesFor db med)) = fun q => q := rfl
  rw [this]
  exact List.map_id (allPharmacies db)

/-- C9 (amended): `findNearbyPharmacies` iterates over the raw
concatenated registry, which — whenever the case-folded pharmacy names
are pairwise distinct, as they are in every state the registration API
can produce — coincides as a set with the deduplicated `list()` of
§4.3; under that hypothesis no two result entries share a case-folded
name. -/
theorem findNearby_over_registry (r : BasePharmacy → BasePharmacy → Prop)
    [DecidableRel r] (dist : Location → Location → Rat) (loc : Location)
    (med : String) (db : AppDatabase)
    (hnames : ((allPharmacies db).map (fun p => toLowerCase p.name)).Nodup) :
    (pharmaciesWithDetails dist loc med db).map (fun p => p.base) = allPharmacies db ∧
    (∀ p, p ∈ getRegisteredPharmacies r db ↔
      p ∈ (pharmaciesWithDetails dist loc med db).map (fun p => p.base)) ∧
    ((findNearbyPharmacies dist loc med db).map
      (fun p => toLowerCase p.base.name)).Nodup := by
  refine ⟨withDetails_map_base_id dist loc med db, ?_, ?_⟩
  · intro p
    rw [withDetails_map_base_id dist loc med db]
    unfold getRegisteredPharmacies
    rw [dedupByName_of_nodup hnames]
    exact (List.perm_insertionSort r _).mem_iff
  · have hmap : (findNearbyPharmacies dist loc med db).map
        (fun p => toLowerCase p.base.name) =
        (combinedResults dist loc med db).map (fun p => toLowerCase p.base.name) := by
      cases hb : bestOption dist loc med db with
      | none => rw [findNearby_of_none hb]
      | some b =>
          rw [findNearby_of_some hb]
          exact map_base_markBest (fun q => toLowerCase q.name) b _
    rw [hmap]
    exact combined_map_base_nodup (fun q => toLowerCase q.name) dist loc med db hnames

/-! ### Concrete states for counterexamples and witnesses -/

theorem beq_stock_ua : (StockStatus.Unavailable == StockStatus.Available) = false := by decide

theorem beq_stock_aa : (StockStatus.Available == StockStatus.Available) = true := by decide

theorem dolo_key : toLowerCase "dolo" = "dolo" := by decide

/-- A degenerate distance function; the engine's structural claims hold
for any distance function. -/
def zeroDist : Location → Location → Rat := fun _ _ => 0

def emptyDb : AppDatabase := { globalInventory := [], dynamicPharmacies := [] }

/-- A stored state holding two pharmacies whose names agree up to case
folding — representable in storage, though never produced by the
registration API. -/
def dupNameDb : AppDatabase :=
  { globalInventory := []
    dynamicPharmacies :=
      [ { id := 1, name := "Apollo", address := "a1", phone := "p1", lat := 0, lon := 0 }
      , { id := 2, name := "APOLLO", address := "a2", phone := "p2", lat := 0, lon := 0 } ] }

/-- Two distinct pharmacies, both stocking the queried medicine. -/
def bestDb : AppDatabase :=
  { globalInventory := [("dolo",
      [ { pharmacyId := 1, price := 50, stock := StockStatus.Available }
      , { pharmacyId := 2, price := 65, stock := StockStatus.Available } ])]
    dynamicPharmacies :=
      [ { id := 1, name := "Apollo", address := "a1", phone := "p1", lat := 0, lon := 0 }
      , { id := 2, name := "MedPlus", address := "a2", phone := "p2", lat := 0, lon := 0 } ] }

/-- One pharmacy holding one stocked medicine. -/
def stockDb : AppDatabase :=
  { globalInventory := [("dolo", [ { pharmacyId := 1, price := 50, stock := StockStatus.Available } ])]
    dynamicPharmacies := [] }

/-- The ranked projection of `bestDb`'s first pharmacy under `zeroDist`. -/
def availEntry1 : RankedPharmacy :=
  { base := ⟨1, "Apollo", "a1", "p1", 0, 0⟩, distance := 0, price := 50,
    priceUnit := "per strip", stock := StockStatus.Available, isBestOption := false }

/-- The ranked projection of `dupNameDb`'s first pharmacy under
`zeroDist` when the medicine is unknown. -/
def unknownEntry1 : RankedPharmacy :=
  { base := ⟨1, "Apollo", "a1", "p1", 0, 0⟩, distance := 0, price := 0, priceUnit := "-",
    stock := StockStatus.Unavailable, isBestOption := false }

theorem availW : availablePharmacies zeroDist ⟨0, 0⟩ "dolo" bestDb =
    [ availEntry1
    , { base := ⟨2, "MedPlus", "a2", "p2", 0, 0⟩, distance := 0, price := 65,
        priceUnit := "per strip", stock := StockStatus.Available, isBestOption := false } ] := by
  norm_num [availablePharmacies, pharmaciesWithDetails, toRanked, stockEntriesFor,
    giFind, hasEntryFor, lastEntryFor, bestDb, zeroDist, allPharmacies,
    VERIFIED_PHARMACIES_IN_BANGALORE, round1, dolo_key, beq_stock_aa, availEntry1]

theorem resW : findNearbyPharmacies zeroDist ⟨0, 0⟩ "dolo" dupNameDb =
    [ unknownEntry1
    , { base := ⟨2, "APOLLO", "a2", "p2", 0, 0⟩, distance := 0, price := 0, priceUnit := "-",
        stock := StockStatus.Unavailable, isBestOption := false } ] := by
  norm_num [findNearbyPharmacies, bestOption, availablePharmacies, unavailablePharmacies,
    pharmaciesWithDetails, toRanked, stockEntriesFor, giFind, hasEntryFor, lastEntryFor,
    combinedResults, sortedUnavailable, MAX_RESULTS, dupNameDb, zeroDist, allPharmacies,
    VERIFIED_PHARMACIES_IN_BANGALORE, round1, List.insertionSort, List.orderedInsert,
    distLE, markBest, bestReduce, setFirst, beq_stock_ua, unknownEntry1]

/-! ### Claim witnesses and counterexample -/

theorem findNearby_result_structure_witness :
    ∃ r ∈ findNearbyPharmacies zeroDist ⟨0, 0⟩ "dolo" bestDb, clearBest r = availEntry1 := by
  apply (findNearby_result_structure zeroDist ⟨0, 0⟩ "dolo" bestDb).2.2.2.2
  rw [availW]
  exact List.mem_cons_self _ _

theorem findNearby_best_option_witness :
    ∃ r ∈ findNearbyPharmacies zeroDist ⟨0, 0⟩ "dolo" bestDb, r.isBestOption = true := by
  obtain ⟨-, h2⟩ := findNearby_best_option zeroDist ⟨0, 0⟩ "dolo" bestDb (by decide)
  obtain ⟨b, l1, l2, -, -, -, -, r, hr, hre, -⟩ := h2 _ _ availW
  exact ⟨r, hr, by rw [hre]⟩

theorem registerOrGetPharmacy_name_identity_witness :
    (registerOrGetPharmacy ⟨"apollo", "p2", "a2"⟩ ⟨1, 1⟩
      (registerOrGetPharmacy ⟨"Apollo", "p1", "a1"⟩ ⟨0, 0⟩ emptyDb).2).1 =
      (registerOrGetPharmacy ⟨"Apollo", "p1", "a1"⟩ ⟨0, 0⟩ emptyDb).1 ∧
    registerOrGetPharmacy ⟨"Apollo", "p9", "a9"⟩ ⟨5, 5⟩ dupNameDb =
      (⟨1, "Apollo", "a1", "p1", 0, 0⟩, dupNameDb) := by
  constructor
  · exact (registerOrGetPharmacy_name_identity ⟨"Apollo", "p1", "a1"⟩ ⟨"apollo", "p2", "a2"⟩
      ⟨0, 0⟩ ⟨1, 1⟩ emptyDb (by decide)).1
  · exact (registerOrGetPharmacy_name_identity ⟨"Apollo", "p9", "a9"⟩ ⟨"Apollo", "p9", "a9"⟩
      ⟨5, 5⟩ ⟨5, 5⟩ dupNameDb (by decide)).2 _ (by decide)

theorem registerOrGetPharmacy_fresh_id_witness :
    1000 < (registerOrGetPharmacy ⟨"Apollo", "p1", "a1"⟩ ⟨0, 0⟩ emptyDb).1.id ∧
    (∀ q ∈ allPharmacies dupNameDb,
      q.id < (registerOrGetPharmacy ⟨"Fresh", "p", "a"⟩ ⟨0, 0⟩ dupNameDb).1.id) := by
  constructor
  · exact (registerOrGetPharmacy_fresh_id ⟨"Apollo", "p1", "a1"⟩ ⟨0, 0⟩ emptyDb (by decide)).2.2.1
  · exact (registerOrGetPharmacy_fresh_id ⟨"Fresh", "p", "a"⟩ ⟨0, 0⟩ dupNameDb (by decide)).2.1

theorem inventory_invariant_preserved_witness :
    InventoryWF (updateGlobalInventory 2
      [⟨"dolo", 30, some StockStatus.Available⟩] stockDb).globalInventory ∧
    InventoryWF (updateStockStatusInGlobalInventory 1 "dolo"
      StockStatus.Unavailable stockDb).globalInventory ∧
    InventoryWF (deleteFromGlobalInventory 1 "dolo" stockDb).globalInventory ∧
    (giFind (deleteFromGlobalInventory 1 "dolo" stockDb).globalInventory
      (toLowerCase "dolo") = none ∧
      checkMedicineLocally "dolo" (deleteFromGlobalInventory 1 "dolo" stockDb) = false) := by
  have h := inventory_invariant_preserved 1 "dolo" StockStatus.Unavailable
    [⟨"dolo", 30, some StockStatus.Available⟩] stockDb
  have h2 := inventory_invariant_preserved 2 "dolo" StockStatus.Unavailable
    [⟨"dolo", 30, some StockStatus.Available⟩] stockDb
  refine ⟨h2.1 (by decide), h.2.1 (by decide), h.2.2.1 (by decide), ?_⟩
  exact h.2.2.2 [⟨1, 50, StockStatus.Available⟩] (by decide) (by decide)

theorem updateStockStatus_spec_witness :
    updateStockStatusInGlobalInventory 1 "dolo" StockStatus.Available emptyDb = emptyDb ∧
    updateStockStatusInGlobalInventory 7 "dolo" StockStatus.Available stockDb = stockDb ∧
    (∃ l₁ e l₂, [(⟨1, 50, StockStatus.Available⟩ : StockEntry)] = l₁ ++ e :: l₂ ∧
      e.pharmacyId = 1 ∧
      (∀ y ∈ l₁, (y.pharmacyId == 1) = false) ∧
      giFind (updateStockStatusInGlobalInventory 1 "dolo"
          StockStatus.Unavailable stockDb).globalInventory (toLowerCase "dolo") =
        some (l₁ ++ ⟨e.pharmacyId, e.price, StockStatus.Unavailable⟩ :: l₂) ∧
      (∀ k, k ≠ toLowerCase "dolo" →
        giFind (updateStockStatusInGlobalInventory 1 "dolo"
            StockStatus.Unavailable stockDb).globalInventory k =
          giFind stockDb.globalInventory k)) := by
  refine ⟨?_, ?_, ?_⟩
  · exact (updateStockStatus_spec 1 "dolo" StockStatus.Available emptyDb).1 (by decide)
  · exact (updateStockStatus_spec 7 "dolo" StockStatus.Available stockDb).2.1
      [⟨1, 50, StockStatus.Available⟩] (by decide) (by decide)
  · exact (updateStockStatus_spec 1 "dolo" StockStatus.Unavailable stockDb).2.2.1
      [⟨1, 50, StockStatus.Available⟩] (by decide) (by decide)

theorem findNearby_entry_fields_witness :
    unknownEntry1.price = 0 ∧ unknownEntry1.priceUnit = "-" ∧
    unknownEntry1.stock = StockStatus.Unavailable := by
  have hmem : unknownEntry1 ∈ findNearbyPharmacies zeroDist ⟨0, 0⟩ "dolo" dupNameDb := by
    rw [resW]
    exact List.mem_cons_self _ _
  exact ((findNearby_entry_fields zeroDist ⟨0, 0⟩ "dolo" dupNameDb) _ hmem).2.2 (by decide)

theorem updateGlobalInventory_frame_witness :
    giFind (updateGlobalInventory 2
        [⟨"Paracetamol", 20, some StockStatus.Available⟩] stockDb).globalInventory "dolo" =
      giFind stockDb.globalInventory "dolo" ∧
    ((giFind (updateGlobalInventory 2
        [⟨"Paracetamol", 20, some StockStatus.Available⟩] stockDb).globalInventory
        "paracetamol").getD []).filter (fun e => !(e.pharmacyId == 2)) =
      ((giFind stockDb.globalInventory "paracetamol").getD []).filter
        (fun e => !(e.pharmacyId == 2)) ∧
    (updateGlobalInventory 2
        [⟨"Paracetamol", 20, some StockStatus.Available⟩] stockDb).dynamicPharmacies =
      stockDb.dynamicPharmacies := by
  have h := updateGlobalInventory_frame 2
    [⟨"Paracetamol", 20, some StockStatus.Available⟩] stockDb
  exact ⟨h.1 "dolo" (by decide), h.2.1 "paracetamol", h.2.2⟩

/-- C9 counterexample: on a stored state holding case-folded duplicate
names, `findNearbyPharmacies` iterates over both duplicates — the
projected set differs from `getRegisteredPharmacies` (which keeps only
the later one) and the result carries two entries with equal
case-folded names, refuting the claim as stated over every state. -/
theorem findNearby_dedup_counterexample :
    ((⟨1, "Apollo", "a1", "p1", 0, 0⟩ : BasePharmacy) ∈
      (pharmaciesWithDetails zeroDist ⟨0, 0⟩ "dolo" dupNameDb).map (fun p => p.base)) ∧
    ((⟨1, "Apollo", "a1", "p1", 0, 0⟩ : BasePharmacy) ∉
      getRegisteredPharmacies (fun _ _ => True) dupNameDb) ∧
    ¬ (((findNearbyPharmacies zeroDist ⟨0, 0⟩ "dolo" dupNameDb).map
        (fun p => toLowerCase p.base.name)).Nodup) := by
  refine ⟨?_, ?_, ?_⟩
  · rw [withDetails_map_base_id]
    decide
  · decide
  · rw [resW]
    decide

theorem findNearby_over_registry_witness :
    ((findNearbyPharmacies zeroDist ⟨0, 0⟩ "dolo" bestDb).map
      (fun p => toLowerCase p.base.name)).Nodup :=
  (findNearby_over_registry (fun _ _ => True) zeroDist ⟨0, 0⟩ "dolo" bestDb (by decide)).2.2

end PharmacySpec
